import Mathlib

/-!
Verification development for the simulation core of the cube-survivors game:
object pools, the spatial grid, weapon/projectile collision resolution,
status effects, the wave state machine, the splitting enemy, and the
direction-vector guards.  Each data type and operation below is a shallow
embedding of the corresponding TypeScript class; JavaScript objects are
identified by numeric handles, `Set` is modelled as a duplicate-free list with
insertion order, `Map` as an association list keyed by its key type, and
floating-point numbers by exact rationals (or integers where the code only
ever compares products and sums).  Callback invocations and log output are
modelled as explicit event lists.
-/

namespace CubeSurvivors

/-! ## Core object pool (`src/lib/game/core/ObjectPool.ts`)

Objects handed out by the pool are identified by the order of their
construction: `createNew` returns handle `totalConstructed` and increments the
counter.  `activeObjects : Set<T>` becomes a duplicate-free list with JS `Set`
insertion semantics, `availableObjects : T[]` a list whose `push`/`pop` work on
the tail.  `Debug.warn` and the optional `resetFn` become events. -/

/-- Event emitted by a pool operation: construction of a fresh object, the
capacity warning, or an application of the reset function to an object. -/
inductive PoolEvent where
  | constructed (objId : Nat)
  | warned
  | didReset (objId : Nat)
deriving DecidableEq, Repr

/-- JS `Set.add`: append the element if it is not already present. -/
def setAdd (l : List Nat) (x : Nat) : List Nat :=
  if x ∈ l then l else l ++ [x]

/-- JS `Set.delete`: remove the element (all occurrences; in the duplicate-free
lists produced by `Set.add` this is the single occurrence). -/
def setDelete (l : List Nat) (x : Nat) : List Nat :=
  l.filter (fun y => y ≠ x)

/-- State of `ObjectPool<T>` from `core/ObjectPool.ts`.  `totalConstructed`
counts every call of `createNew`, and doubles as the source of fresh object
handles. -/
structure PoolState where
  maxSize : Nat
  hasResetFn : Bool
  totalConstructed : Nat
  activeObjects : List Nat
  availableObjects : List Nat
deriving DecidableEq, Repr

/-- The pool constructor: pre-create `initialSize` objects into the available
list (`availableObjects.push(this.createNew())` in a loop). -/
def PoolState.init (hasResetFn : Bool) (initialSize maxSize : Nat) : PoolState :=
  { maxSize := maxSize
    hasResetFn := hasResetFn
    totalConstructed := initialSize
    activeObjects := []
    availableObjects := List.range initialSize }

/-- Tail of `ObjectPool.get`: apply `resetFn` when present, add the object to
the active set, and return it. -/
def PoolState.handOut (s : PoolState) (obj : Nat) (evs : List PoolEvent) :
    Nat × PoolState × List PoolEvent :=
  let evs2 := if s.hasResetFn then evs ++ [PoolEvent.didReset obj] else evs
  (obj, { s with activeObjects := setAdd s.activeObjects obj }, evs2)

/-- `ObjectPool.get`: pop from the available list if possible; otherwise warn
when `maxSize > 0 && activeObjects.size >= maxSize` and construct a new object
regardless (the pool fails open).  Either way the object is reset (when a
reset function exists), tracked as active, and returned. -/
def PoolState.get (s : PoolState) : Nat × PoolState × List PoolEvent :=
  match s.availableObjects.getLast? with
  | some obj =>
      PoolState.handOut { s with availableObjects := s.availableObjects.dropLast } obj []
  | none =>
      let warnEvs : List PoolEvent :=
        if 0 < s.maxSize ∧ s.maxSize ≤ s.activeObjects.length then [PoolEvent.warned] else []
      let obj := s.totalConstructed
      PoolState.handOut { s with totalConstructed := s.totalConstructed + 1 } obj
        (warnEvs ++ [PoolEvent.constructed obj])

/-- `ObjectPool.release`: if the object is not in the active set, silently do
nothing; otherwise move it from the active set to the available list. -/
def PoolState.release (s : PoolState) (obj : Nat) : PoolState :=
  if obj ∈ s.activeObjects then
    { s with
      activeObjects := setDelete s.activeObjects obj
      availableObjects := s.availableObjects ++ [obj] }
  else s

/-- An externally observable pool operation (no `clear`). -/
inductive PoolOp where
  | acquire
  | release (obj : Nat)
deriving DecidableEq, Repr

/-- Apply one pool operation, discarding the returned handle and events. -/
def PoolState.stepOp (s : PoolState) : PoolOp → PoolState
  | PoolOp.acquire => (s.get).2.1
  | PoolOp.release obj => s.release obj

/-- Run a sequence of acquire/release operations. -/
def PoolState.runOps (s : PoolState) (ops : List PoolOp) : PoolState :=
  ops.foldl PoolState.stepOp s

/-- Run `n` consecutive `get` calls, collecting the handles, the final state
and all emitted events. -/
def PoolState.runGets : PoolState → Nat → List Nat × PoolState × List PoolEvent
  | s, 0 => ([], s, [])
  | s, n + 1 =>
      let r := s.get
      let rest := PoolState.runGets r.2.1 n
      (r.1 :: rest.1, rest.2.1, r.2.2 ++ rest.2.2)

/-- The spec's scenario pool: pre-warmed with 3 objects, `maxSize` 10. -/
def poolPrewarm3 : PoolState := PoolState.init false 3 10

/-- The scenario pool after `n` consecutive acquisitions. -/
def poolAfter (n : Nat) : PoolState :=
  PoolState.runOps poolPrewarm3 (List.replicate n PoolOp.acquire)

/-- Internal invariant of the core pool: active and available are
duplicate-free and disjoint, hold only constructed handles, and together
account for every construction. -/
def PoolState.Inv (s : PoolState) : Prop :=
  s.activeObjects.Nodup ∧ s.availableObjects.Nodup ∧
  (∀ x ∈ s.activeObjects, x ∉ s.availableObjects) ∧
  (∀ x ∈ s.activeObjects, x < s.totalConstructed) ∧
  (∀ x ∈ s.availableObjects, x < s.totalConstructed) ∧
  s.activeObjects.length + s.availableObjects.length = s.totalConstructed

/-! ## Generic object pool of the second implementation (`part_005`)

This pool differs from the core one at capacity: when no object is available
and `active.size + available.length >= maxSize`, `get` warns and returns
`null` — modelled as `Option.none` — instead of constructing a new object. -/

/-- State of the `ObjectPool<T>` class from the second implementation. -/
structure GPoolState where
  maxSize : Nat
  totalConstructed : Nat
  active : List Nat
  available : List Nat
deriving DecidableEq, Repr

/-- Constructor of the second pool: pre-populate `initialSize` objects. -/
def GPoolState.init (initialSize maxSize : Nat) : GPoolState :=
  { maxSize := maxSize
    totalConstructed := initialSize
    active := []
    available := List.range initialSize }

/-- Total size of the second pool (`getTotalSize`). -/
def GPoolState.totalSize (s : GPoolState) : Nat :=
  s.active.length + s.available.length

/-- The second implementation's `get`: pop from `available`, else construct a
new object only while `getTotalSize() < maxSize`; at capacity it warns and
returns `null` (`Option.none`) without constructing anything. -/
def GPoolState.get (s : GPoolState) : Option Nat × GPoolState × List PoolEvent :=
  match s.available.getLast? with
  | some obj =>
      let s1 := { s with available := s.available.dropLast }
      (some obj, { s1 with active := setAdd s1.active obj }, [PoolEvent.didReset obj])
  | none =>
      if s.totalSize < s.maxSize then
        let obj := s.totalConstructed
        let s1 := { s with totalConstructed := s.totalConstructed + 1 }
        (some obj,
          { s1 with active := setAdd s1.active obj },
          [PoolEvent.constructed obj, PoolEvent.didReset obj])
      else
        (none, s, [PoolEvent.warned])

/-- Run `n` consecutive `get` calls of the second pool, keeping the state. -/
def GPoolState.runGets : GPoolState → Nat → GPoolState
  | s, 0 => s
  | s, n + 1 => GPoolState.runGets (s.get).2.1 n

/-! ## Spatial grid (`SpatialGrid` class, second implementation file)

Positions and radii are embedded as exact integers; `Math.floor(a / cellSize)`
is integer floor division `Int.fdiv`.  The string cell key
`"${x},${y},${z}"` is an injective encoding of the integer triple, so cells
are keyed by the triple directly.  The `cells : Map<string, T[]>` becomes a
total function from keys to lists (a missing key is the empty list, and
deleting an emptied cell equals storing the empty list); `objects` becomes the
underlying association list of the id-keyed map. -/

/-- A spatial object: unique id, 3-D position, and collision radius. -/
structure SObj where
  id : Nat
  x : ℤ
  y : ℤ
  z : ℤ
  radius : ℤ
deriving DecidableEq, Repr

/-- Cell coordinates are integer triples (the decoded string key). -/
abbrev CellKey := ℤ × ℤ × ℤ

/-- The inclusive integer interval `[lo, hi]` as a list (the JS
`for (let c = lo; c <= hi; c++)` loop), empty when `hi < lo`. -/
def keyRange (lo hi : ℤ) : List ℤ :=
  (List.range (hi + 1 - lo).toNat).map (fun n : ℕ => lo + (n : ℤ))

/-- All cell keys of the axis-aligned box `[minX,maxX]×[minY,maxY]×[minZ,maxZ]`,
after flooring each bound by the cell size (the triple nested loop shared by
`getCellsForObject` and `queryRadius`). -/
def boxKeys (s minX maxX minY maxY minZ maxZ : ℤ) : List CellKey :=
  (keyRange (minX.fdiv s) (maxX.fdiv s)).flatMap (fun cx =>
    (keyRange (minY.fdiv s) (maxY.fdiv s)).flatMap (fun cy =>
      (keyRange (minZ.fdiv s) (maxZ.fdiv s)).map (fun cz => (cx, cy, cz))))

/-- `getCellsForObject`: every cell overlapped by the box of the object's
position extended by its radius on each axis. -/
def cellsForObject (s : ℤ) (o : SObj) : List CellKey :=
  boxKeys s (o.x - o.radius) (o.x + o.radius) (o.y - o.radius) (o.y + o.radius)
    (o.z - o.radius) (o.z + o.radius)

/-- Cell keys scanned by `queryRadius` for a center and radius. -/
def queryKeys (s cx cy cz r : ℤ) : List CellKey :=
  boxKeys s (cx - r) (cx + r) (cy - r) (cy + r) (cz - r) (cz + r)

/-- State of the `SpatialGrid` class. -/
structure SpatialGrid where
  cellSize : ℤ
  objects : List SObj
  cells : CellKey → List SObj

/-- A freshly constructed grid. -/
def SpatialGrid.empty (s : ℤ) : SpatialGrid :=
  { cellSize := s, objects := [], cells := fun _ => [] }

/-- JS `Map.set` on the id-keyed object map: replace in place if the id is
present, otherwise append. -/
def mapSetObj (l : List SObj) (o : SObj) : List SObj :=
  if l.any (fun p => p.id = o.id) then l.map (fun p => if p.id = o.id then o else p)
  else l ++ [o]

/-- Push an object onto every cell in the key list (`cells.get(key).push(object)`
per key of `getCellsForObject`). -/
def pushCells (c : CellKey → List SObj) (keys : List CellKey) (o : SObj) :
    CellKey → List SObj :=
  keys.foldl (fun acc k => Function.update acc k (acc k ++ [o])) c

/-- Filter an id out of every cell in the key list (`cell.filter(obj.id !== id)`
per key; storing the possibly-empty result subsumes the `cells.delete`). -/
def filterCells (c : CellKey → List SObj) (keys : List CellKey) (i : Nat) :
    CellKey → List SObj :=
  keys.foldl (fun acc k => Function.update acc k ((acc k).filter (fun p => p.id ≠ i))) c

/-- `SpatialGrid.insert`: store the object in the id map and push it onto every
cell its radius-box overlaps. -/
def SpatialGrid.insert (g : SpatialGrid) (o : SObj) : SpatialGrid :=
  { g with
    objects := mapSetObj g.objects o
    cells := pushCells g.cells (cellsForObject g.cellSize o) o }

/-- `SpatialGrid.remove`: look the id up; if absent do nothing, otherwise
filter it out of the cells computed from the stored object and delete it from
the id map. -/
def SpatialGrid.remove (g : SpatialGrid) (i : Nat) : SpatialGrid :=
  match g.objects.find? (fun p => p.id = i) with
  | none => g
  | some o =>
      { g with
        objects := g.objects.filter (fun p => p.id ≠ i)
        cells := filterCells g.cells (cellsForObject g.cellSize o) i }

/-- `SpatialGrid.update`: remove the old entries and re-insert. -/
def SpatialGrid.updateObj (g : SpatialGrid) (o : SObj) : SpatialGrid :=
  (g.remove o.id).insert o

/-- Squared Euclidean distance between an object and a query center (the code
compares `dx*dx + dy*dy + dz*dz` with `radius * radius`). -/
def distSqZ (o : SObj) (cx cy cz : ℤ) : ℤ :=
  (o.x - cx) ^ 2 + (o.y - cy) ^ 2 + (o.z - cz) ^ 2

/-- JS `Set.add` for object references (stored objects with equal ids are the
same map entry, so structural equality matches reference equality here). -/
def setAddObj (l : List SObj) (o : SObj) : List SObj :=
  if o ∈ l then l else l ++ [o]

/-- `SpatialGrid.queryRadius`: gather the contents of every cell overlapping
the query box into a set, then keep the objects with squared distance at most
`radius * radius`. -/
def SpatialGrid.queryRadius (g : SpatialGrid) (cx cy cz r : ℤ) : List SObj :=
  let nearby := (queryKeys g.cellSize cx cy cz r).foldl
    (fun acc k => (g.cells k).foldl setAddObj acc) []
  nearby.filter (fun o => distSqZ o cx cy cz ≤ r * r)

/-- Grid operations available to clients. -/
inductive GridOp where
  | ins (o : SObj)
  | upd (o : SObj)
  | rem (i : Nat)
deriving DecidableEq, Repr

/-- Apply one grid operation. -/
def SpatialGrid.applyOp (g : SpatialGrid) : GridOp → SpatialGrid
  | GridOp.ins o => g.insert o
  | GridOp.upd o => g.updateObj o
  | GridOp.rem i => g.remove i

/-- Apply a sequence of grid operations to the empty grid. -/
def applyOps (s : ℤ) (ops : List GridOp) : SpatialGrid :=
  ops.foldl SpatialGrid.applyOp (SpatialGrid.empty s)

/-- Usage hygiene of an operation sequence: objects carry a non-negative
radius, and `insert` is only used for ids not currently stored (an existing id
is kept current through `update`, which removes before re-inserting). -/
def hygienicFrom (g : SpatialGrid) : List GridOp → Bool
  | [] => true
  | GridOp.ins o :: rest =>
      decide (0 ≤ o.radius) && g.objects.all (fun p => p.id ≠ o.id) &&
        hygienicFrom (g.insert o) rest
  | GridOp.upd o :: rest =>
      decide (0 ≤ o.radius) && hygienicFrom (g.updateObj o) rest
  | GridOp.rem i :: rest => hygienicFrom (g.remove i) rest

/-- Modelled from the spec: the brute-force query set, "the objects whose
distance from the center is <= radius".  Over exact integers,
`sqrt (distSqZ o c) ≤ r` holds iff `0 ≤ r ∧ distSqZ o c ≤ r * r`, which is the
decidable form used here. -/
def bruteForce (objs : List SObj) (cx cy cz r : ℤ) : List SObj :=
  objs.filter (fun o => decide (0 ≤ r ∧ distSqZ o cx cy cz ≤ r * r))

/-- Well-formedness invariant tying the incremental cell structure to the
object map: positive cell size, non-negative radii, unique ids, and a cell
contains exactly the stored objects whose radius-box overlaps it. -/
def SpatialGrid.Wf (g : SpatialGrid) : Prop :=
  0 < g.cellSize ∧
  (∀ o ∈ g.objects, 0 ≤ o.radius) ∧
  (g.objects.map SObj.id).Nodup ∧
  (∀ k o, o ∈ g.cells k ↔ o ∈ g.objects ∧ k ∈ cellsForObject g.cellSize o)

/-- A first demo object for the spatial-grid scenario. -/
def gridObj1 : SObj := { id := 1, x := 0, y := 0, z := 0, radius := 0 }

/-- A second demo object for the spatial-grid scenario. -/
def gridObj2 : SObj := { id := 2, x := 3, y := 0, z := 0, radius := 1 }

/-- The demo object of the negative-radius counterexample. -/
def gridObjC : SObj := { id := 0, x := 47, y := 50, z := 50, radius := 0 }

/-! ## Rational 3-vectors

Exact stand-in for `THREE.Vector3` where only field arithmetic is involved. -/

/-- A 3-vector with exact rational coordinates. -/
structure Vec3 where
  x : ℚ
  y : ℚ
  z : ℚ
deriving DecidableEq, Repr

/-- Componentwise vector addition. -/
def Vec3.add (a b : Vec3) : Vec3 := ⟨a.x + b.x, a.y + b.y, a.z + b.z⟩

/-- Componentwise vector subtraction (`subVectors`). -/
def Vec3.sub (a b : Vec3) : Vec3 := ⟨a.x - b.x, a.y - b.y, a.z - b.z⟩

/-- Squared length (`lengthSq`). -/
def Vec3.lengthSq (v : Vec3) : ℚ := v.x ^ 2 + v.y ^ 2 + v.z ^ 2

/-- Squared distance between two points; the code's `distanceTo(a) < 1`
comparison is equivalent to `distSq < 1`. -/
def Vec3.distSq (a b : Vec3) : ℚ := (a.x - b.x) ^ 2 + (a.y - b.y) ^ 2 + (a.z - b.z) ^ 2

/-! ## Weapon collision resolution (`Weapon.checkEnemyCollisions`, upgraded
weapon with critical hits, piercing and poison)

Projectiles carry a numeric id standing for JS object identity.  The
`Math.random() < this.criticalChance` roll is an oracle `crit` indexed by the
projectile id and the enemy index.  Damage applications are recorded as
events; `applyPoisonDamage` applies its first damage tick synchronously
(the initial `applyDamage()` call), and its later `setTimeout`-scheduled ticks
fall outside the synchronous collision pass. -/

/-- An enemy as seen by the weapon: position, health, death flag
(`Enemy.takeDamage` subtracts damage and calls `die` at zero health). -/
structure CEnemy where
  pos : Vec3
  health : ℚ
  isDead : Bool
deriving DecidableEq, Repr

/-- `Enemy.takeDamage`: subtract the amount, then die (set `isDead`) when
health has dropped to zero or below and the enemy was not dead already. -/
def CEnemy.takeDamage (e : CEnemy) (amount : ℚ) : CEnemy :=
  let e1 := { e with health := e.health - amount }
  if e1.health ≤ 0 ∧ e1.isDead = false then { e1 with isDead := true } else e1

/-- A live projectile of the weapon's `projectiles` array. -/
structure WProjectile where
  id : Nat
  pos : Vec3
  damage : ℚ
deriving DecidableEq, Repr

/-- The weapon upgrade flags and parameters consulted by the collision pass. -/
structure WeaponCfg where
  hasCriticalHits : Bool
  criticalMultiplier : ℚ
  hasPiercing : Bool
  hasPoisonDamage : Bool
  poisonDamage : ℚ
  poisonDuration : ℚ
deriving DecidableEq, Repr

/-- A damage application observed during the collision pass: the direct
projectile damage, or the synchronous first tick of the poison effect. -/
inductive HitEvent where
  | damaged (pid enemyIdx : Nat) (amount : ℚ)
  | poisonTick (pid enemyIdx : Nat) (amount : ℚ)
deriving DecidableEq, Repr

/-- The projectile id an event belongs to. -/
def HitEvent.pid : HitEvent → Nat
  | HitEvent.damaged p _ _ => p
  | HitEvent.poisonTick p _ _ => p

/-- The enemy index an event damaged. -/
def HitEvent.enemyIdx : HitEvent → Nat
  | HitEvent.damaged _ j _ => j
  | HitEvent.poisonTick _ j _ => j

/-- Whether the event is a direct projectile damage application. -/
def HitEvent.isDamaged : HitEvent → Bool
  | HitEvent.damaged _ _ _ => true
  | HitEvent.poisonTick _ _ _ => false

/-- Whether the event is a direct damage application by the given projectile. -/
def HitEvent.isDirectHitBy (pid : Nat) : HitEvent → Bool
  | HitEvent.damaged p _ _ => p = pid
  | HitEvent.poisonTick _ _ _ => false

/-- Synchronous part of `applyPoisonDamage`: the initial `applyDamage()` call
returns immediately when the enemy is dead or `0 >= poisonDuration *
poisonDamage`; otherwise it applies one tick of `poisonDamage * 0.5` damage
(subsequent ticks are `setTimeout`-scheduled, outside this pass). -/
def applyPoisonSync (cfg : WeaponCfg) (pid j : Nat) (e : CEnemy) : CEnemy × List HitEvent :=
  if e.isDead then (e, [])
  else if cfg.poisonDuration * cfg.poisonDamage ≤ 0 then (e, [])
  else
    (e.takeDamage (cfg.poisonDamage * (1 / 2)),
     [HitEvent.poisonTick pid j (cfg.poisonDamage * (1 / 2))])

/-- Result of scanning one projectile against the enemy array. -/
structure ScanResult where
  enemies : List CEnemy
  hitEnemy : Bool
  shouldRemove : Bool
  events : List HitEvent
  killed : List Nat
deriving DecidableEq, Repr

/-- The inner `for (const enemy of enemies)` loop for one projectile.  The
list is the not-yet-visited suffix of the enemy array and `j` is the array
index of its head (used to name enemies in events): skip dead enemies; on a
hit within distance 1, apply (possibly critical) damage, then poison, record
a kill if the enemy died, and either continue with
`shouldRemoveProjectile = false` (piercing) or break.  The returned `enemies`
is the suffix with the in-place `takeDamage` mutations applied. -/
def hitScan (cfg : WeaponCfg) (crit : Nat → Nat → Bool) (p : WProjectile) :
    Nat → List CEnemy → ScanResult
  | _, [] => ⟨[], false, true, [], []⟩
  | j, e :: rest =>
    if e.isDead then
      let r := hitScan cfg crit p (j + 1) rest
      ⟨e :: r.enemies, r.hitEnemy, r.shouldRemove, r.events, r.killed⟩
    else if Vec3.distSq p.pos e.pos < 1 then
      let dmg := if cfg.hasCriticalHits = true ∧ crit p.id j = true then
        p.damage * cfg.criticalMultiplier else p.damage
      let e1 := e.takeDamage dmg
      let pr := if cfg.hasPoisonDamage then applyPoisonSync cfg p.id j e1 else (e1, [])
      let evsHere := HitEvent.damaged p.id j dmg :: pr.2
      let killedHere := if pr.1.isDead then [j] else []
      if cfg.hasPiercing then
        let r := hitScan cfg crit p (j + 1) rest
        ⟨pr.1 :: r.enemies, true, false, evsHere ++ r.events, killedHere ++ r.killed⟩
      else
        ⟨pr.1 :: rest, true, true, evsHere, killedHere⟩
    else
      let r := hitScan cfg crit p (j + 1) rest
      ⟨e :: r.enemies, r.hitEnemy, r.shouldRemove, r.events, r.killed⟩

/-- Result of a whole collision pass. -/
structure PassResult where
  projectiles : List WProjectile
  enemies : List CEnemy
  events : List HitEvent
  killed : List Nat
deriving DecidableEq, Repr

/-- The outer projectile loop, iterating indices `i-1, i-2, ..., 0`.  After a
projectile's scan, the source removes it when
`(hitEnemy && shouldRemoveProjectile) || (hitEnemy && hasPiercing)` — note the
second disjunct, which removes the projectile even on a piercing hit. -/
def passFrom (cfg : WeaponCfg) (crit : Nat → Nat → Bool) :
    Nat → List WProjectile → List CEnemy → PassResult
  | 0, projs, enemies => ⟨projs, enemies, [], []⟩
  | i + 1, projs, enemies =>
    match projs[i]? with
    | none => passFrom cfg crit i projs enemies
    | some p =>
      let r := hitScan cfg crit p 0 enemies
      let projs2 :=
        if (r.hitEnemy = true ∧ r.shouldRemove = true) ∨
            (r.hitEnemy = true ∧ cfg.hasPiercing = true) then
          projs.eraseIdx i
        else projs
      let rest := passFrom cfg crit i projs2 r.enemies
      ⟨rest.projectiles, rest.enemies, r.events ++ rest.events, r.killed ++ rest.killed⟩

/-- `Weapon.checkEnemyCollisions`: scan every projectile (from the last index
down) against the enemy array. -/
def checkEnemyCollisions (cfg : WeaponCfg) (crit : Nat → Nat → Bool)
    (projs : List WProjectile) (enemies : List CEnemy) : PassResult :=
  passFrom cfg crit projs.length projs enemies

/-- A weapon with piercing enabled and the other upgrades off. -/
def piercingCfg : WeaponCfg :=
  { hasCriticalHits := false, criticalMultiplier := 2, hasPiercing := true,
    hasPoisonDamage := false, poisonDamage := 1 / 2, poisonDuration := 3 }

/-- The same weapon without piercing. -/
def nonPiercingCfg : WeaponCfg :=
  { piercingCfg with hasPiercing := false }

/-- A concrete projectile at the origin. -/
def demoProjectile : WProjectile := { id := 0, pos := ⟨0, 0, 0⟩, damage := 1 }

/-- A live enemy overlapping the projectile. -/
def demoEnemyA : CEnemy := { pos := ⟨0, 0, 0⟩, health := 5, isDead := false }

/-- A second live enemy overlapping the projectile. -/
def demoEnemyB : CEnemy := { pos := ⟨0, 0, 0⟩, health := 5, isDead := false }

/-- An already-dead enemy overlapping the projectile. -/
def demoDeadEnemy : CEnemy := { pos := ⟨0, 0, 0⟩, health := 0, isDead := true }

/-! ## Status effect manager (`StatusEffectManager`)

Effects are keyed by their string id in a JS `Map`, embedded as an ordered
association list.  Each effect carries a numeric `label` standing for the
identity of its callback closures, and one flag per optional callback;
callback invocations are recorded as events. -/

/-- A status effect description (`StatusEffect` interface); `onStart`/`onEnd`
record whether the optional callbacks are provided. -/
structure SEffect where
  id : String
  label : Nat
  duration : ℚ
  tickInterval : Option ℚ
  onStart : Bool
  onTick : Bool
  onEnd : Bool
deriving DecidableEq, Repr

/-- A map entry: the effect plus its elapsed and last-tick clocks. -/
structure SEntry where
  effect : SEffect
  elapsed : ℚ
  lastTick : ℚ
deriving DecidableEq, Repr

/-- The `effects : Map<string, ...>` of one `StatusEffectManager`. -/
structure SEManager where
  effects : List (String × SEntry)
deriving DecidableEq, Repr

/-- A callback invocation: `onStart` or `onEnd` of the effect with the given
label. -/
inductive SEEvent where
  | started (label : Nat)
  | ended (label : Nat)
deriving DecidableEq, Repr

/-- Lookup of `effects.get(id)` / `effects.has(id)`. -/
def SEManager.findEntry (m : SEManager) (i : String) : Option (String × SEntry) :=
  m.effects.find? (fun kv => kv.1 = i)

/-- `removeEffect`: when the id is present, fire its `onEnd` (if provided) and
delete the entry; otherwise do nothing. -/
def SEManager.removeEffect (m : SEManager) (i : String) : SEManager × List SEEvent :=
  match m.findEntry i with
  | some kv =>
      (⟨m.effects.filter (fun p => p.1 ≠ i)⟩,
       if kv.2.effect.onEnd then [SEEvent.ended kv.2.effect.label] else [])
  | none => (m, [])

/-- `addEffect`: if an effect with the same id exists, remove it first (its
`onEnd` fires), then store the new effect with fresh clocks and fire its
`onStart` (if provided). -/
def SEManager.addEffect (m : SEManager) (e : SEffect) : SEManager × List SEEvent :=
  let r1 := if (m.findEntry e.id).isSome then m.removeEffect e.id else (m, [])
  let m2 : SEManager := ⟨r1.1.effects ++ [(e.id, ⟨e, 0, 0⟩)]⟩
  (m2, r1.2 ++ (if e.onStart then [SEEvent.started e.label] else []))

/-- A concrete poison effect already installed (for the replace scenario). -/
def demoOldEffect : SEffect :=
  { id := "poison", label := 1, duration := 3, tickInterval := some (1 / 2),
    onStart := true, onTick := true, onEnd := true }

/-- A concrete poison effect reusing the same id (the replacement). -/
def demoNewEffect : SEffect :=
  { id := "poison", label := 2, duration := 3, tickInterval := some (1 / 2),
    onStart := true, onTick := true, onEnd := true }

/-- A manager currently holding the old poison effect. -/
def demoManager : SEManager :=
  ⟨[("poison", { effect := demoOldEffect, elapsed := 0, lastTick := 0 })]⟩

/-! ## Wave state machine (`EnemyManager`)

The fields of `EnemyManager` that the wave logic reads and writes, with the
enemy list reduced to the per-enemy data the machine consults (kind and death
flag).  `Math.random()` draws are oracle parameters.  Scene/DOM side effects
(`notifyWaveChange`, `onBossSpawned`, `onGameWon`) and the player-collision
damage inside `updateEnemies` touch no modelled field and are omitted. -/

/-- Enemy kinds spawned by the manager. -/
inductive EKind where
  | melee
  | ranged
  | splitting
  | aoe
  | boss
deriving DecidableEq, Repr

/-- Minimal per-enemy state consulted by the wave machine. -/
structure MEnemy where
  kind : EKind
  isDead : Bool
deriving DecidableEq, Repr

/-- `getIsBoss()`. -/
def MEnemy.isBoss (e : MEnemy) : Bool := e.kind = EKind.boss

/-- The wave-machine fields of `EnemyManager`. -/
structure EMState where
  waveNumber : Nat
  waveTimer : ℚ
  spawnTimer : ℚ
  spawnCooldown : ℚ
  maxEnemies : Nat
  bossSpawned : Bool
  bossDefeated : Bool
  gameWon : Bool
  isWaveTransitioning : Bool
  enemies : List MEnemy
deriving DecidableEq, Repr

/-- `waveDuration = 30` seconds. -/
def waveDuration : ℚ := 30

/-- The constructor state of `EnemyManager`. -/
def EMState.init : EMState :=
  { waveNumber := 1
    waveTimer := 0
    spawnTimer := 0
    spawnCooldown := 2
    maxEnemies := 50
    bossSpawned := false
    bossDefeated := false
    gameWon := false
    isWaveTransitioning := false
    enemies := [] }

/-- A spawn observed on the manager (`enemies.push(...)`). -/
inductive EMEvent where
  | spawned (kind : EKind)
deriving DecidableEq, Repr

/-- `spawnBoss`: push a boss enemy and set `bossSpawned`. -/
def EMState.spawnBoss (s : EMState) : EMState × List EMEvent :=
  ({ s with enemies := s.enemies ++ [⟨EKind.boss, false⟩], bossSpawned := true },
   [EMEvent.spawned EKind.boss])

/-- The wave-banded enemy-type table of `spawnEnemy` (waves 1–2 melee only;
3–4 add ranged; 5–6 add splitting; 7 up add AoE — the wave-10 branch repeats
the 7–9 table). -/
def pickKind (wave : Nat) (rand : ℚ) : EKind :=
  if wave ≤ 2 then EKind.melee
  else if wave ≤ 4 then (if rand < 1 / 2 then EKind.ranged else EKind.melee)
  else if wave ≤ 6 then
    (if rand < 33 / 100 then EKind.ranged
     else if rand < 66 / 100 then EKind.melee
     else EKind.splitting)
  else
    (if rand < 1 / 4 then EKind.ranged
     else if rand < 1 / 2 then EKind.melee
     else if rand < 3 / 4 then EKind.splitting
     else EKind.aoe)

/-- `spawnEnemy`: at wave 10, spawn the boss if it is not there yet, and spawn
nothing while it is alive; otherwise push an enemy of the wave-banded kind. -/
def EMState.spawnEnemy (s : EMState) (rand : ℚ) : EMState × List EMEvent :=
  if s.waveNumber = 10 ∧ s.bossSpawned = false then s.spawnBoss
  else if s.waveNumber = 10 ∧ s.bossDefeated = false then (s, [])
  else
    let k := pickKind s.waveNumber rand
    ({ s with enemies := s.enemies ++ [⟨k, false⟩] }, [EMEvent.spawned k])

/-- `updateEnemies`: sweep dead enemies out of the list; a dead boss flips
`bossDefeated` and `gameWon`. -/
def EMState.updateEnemies (s : EMState) : EMState :=
  let bossDied := s.enemies.any (fun e => e.isDead && e.isBoss)
  { s with
    enemies := s.enemies.filter (fun e => !e.isDead)
    bossDefeated := s.bossDefeated || bossDied
    gameWon := s.gameWon || bossDied }

/-- Kind selection of the between-wave spawn burst inside `advanceToNextWave`:
melee only before wave 6, otherwise ranged with probability
`0.2 + (wave - 6) * 0.05`. -/
def burstKind (wave : Nat) (rand : ℚ) : EKind :=
  if wave < 6 then EKind.melee
  else if rand < 1 / 5 + ((wave : ℚ) - 6) * (1 / 20) then EKind.ranged
  else EKind.melee

/-- `advanceToNextWave`: increment and cap the wave number, reset the timer
and the transition guard, speed spawning up, raise the enemy cap; at wave 10
clear all enemies and spawn the boss, otherwise spawn a burst of
`min (5 + wave) 10` enemies.  `burstRands` feeds the per-enemy random draw. -/
def EMState.advanceToNextWave (s : EMState) (burstRands : List ℚ) :
    EMState × List EMEvent :=
  let w1 := s.waveNumber + 1
  let w := if 10 < w1 then 10 else w1
  let s1 := { s with
    waveNumber := w
    waveTimer := 0
    isWaveTransitioning := false
    spawnCooldown := max (1 / 2) (s.spawnCooldown * (9 / 10))
    maxEnemies := s.maxEnemies + 5 }
  if w = 10 then EMState.spawnBoss { s1 with enemies := [] }
  else
    let spawnCount := min (5 + w) 10
    let kinds := (List.range spawnCount).map (fun n => burstKind w (burstRands.getD n 1))
    ({ s1 with enemies := s1.enemies ++ kinds.map (fun k => ⟨k, false⟩) },
     kinds.map EMEvent.spawned)

/-- The spawn-timer block of `EnemyManager.update`: once the (already
decremented) spawn timer is due and the enemy cap is not reached, spawn an
enemy and re-arm the timer with the wave-scaled, jittered cooldown. -/
def EMState.spawnPhase (s2 : EMState) (rand1 rand2 : ℚ) : EMState × List EMEvent :=
  if s2.spawnTimer ≤ (0 : ℚ) ∧ s2.enemies.length < s2.maxEnemies then
    let sp := s2.spawnEnemy rand1
    let mult := max (1 / 2) (1 - (s2.waveNumber : ℚ) * (1 / 20))
    ({ sp.1 with spawnTimer := sp.1.spawnCooldown * mult * (4 / 5 + rand2 * (2 / 5)) },
     sp.2)
  else (s2, [])

/-- `EnemyManager.update`: return early (only sweeping) once the game is won
or while the wave-10 boss is alive; otherwise advance the wave timer (possibly
advancing the wave and returning), then run the spawn timer and sweep. -/
def EMState.update (s : EMState) (delta rand1 rand2 : ℚ) (burstRands : List ℚ) :
    EMState × List EMEvent :=
  if s.gameWon = true ∨
      (s.waveNumber = 10 ∧ s.bossSpawned = true ∧ s.bossDefeated = false) then
    (s.updateEnemies, [])
  else
    let stage :=
      if s.isWaveTransitioning = false ∧ s.waveNumber < 10 then
        let wt := s.waveTimer + delta
        if waveDuration ≤ wt then
          Sum.inl (EMState.advanceToNextWave
            { s with isWaveTransitioning := true, waveTimer := 0 } burstRands)
        else Sum.inr { s with waveTimer := wt }
      else Sum.inr s
    match stage with
    | Sum.inl r => r
    | Sum.inr s1 =>
      let r3 := EMState.spawnPhase { s1 with spawnTimer := s1.spawnTimer - delta } rand1 rand2
      (r3.1.updateEnemies, r3.2)

/-- One step of the wave machine: an `update` tick, an external
`advanceToNextWave` call, or the environment marking an enemy dead (the
weapon or player damage killing it between ticks). -/
inductive EMOp where
  | update (delta rand1 rand2 : ℚ) (burstRands : List ℚ)
  | advance (burstRands : List ℚ)
  | markDead (idx : Nat)

/-- Apply one step, returning the new state and the spawn events. -/
def EMState.stepOp (s : EMState) : EMOp → EMState × List EMEvent
  | EMOp.update d r1 r2 br => s.update d r1 r2 br
  | EMOp.advance br => s.advanceToNextWave br
  | EMOp.markDead i =>
      (match s.enemies[i]? with
       | some e => { s with enemies := s.enemies.set i { e with isDead := true } }
       | none => s,
       [])

/-- Run a step sequence from the constructor state. -/
def runEM (ops : List EMOp) : EMState :=
  ops.foldl (fun s op => (s.stepOp op).1) EMState.init

/-! ## Splitting melee enemy (`SplittingMeleeEnemy.die`)

Melee enemies constructed by the split: base health 20 scaled by the wave
multiplier `1 + (wave - 1) * 0.2`; the split damages each child by 75% of its
max health.  Scene membership is tracked by an `inScene` flag (`scene.add` /
`scene.remove`). -/

/-- A melee enemy as produced by the `MeleeEnemy` constructor. -/
structure MeleeE where
  pos : Vec3
  health : ℚ
  maxHealth : ℚ
  isDead : Bool
  inScene : Bool
  waveNumber : Nat
deriving DecidableEq, Repr

/-- Base health of `MeleeEnemy` (constructor argument 20). -/
def meleeBaseHealth : ℚ := 20

/-- Health multiplier of the `Enemy` base constructor:
`1 + (waveNumber - 1) * 0.2`. -/
def waveHealthMultiplier (wave : Nat) : ℚ := 1 + ((wave : ℚ) - 1) * (1 / 5)

/-- Construct a melee enemy at a position for a wave (`new MeleeEnemy(...)`). -/
def MeleeE.spawn (pos : Vec3) (wave : Nat) : MeleeE :=
  let h := meleeBaseHealth * waveHealthMultiplier wave
  { pos := pos, health := h, maxHealth := h, isDead := false, inScene := true,
    waveNumber := wave }

/-- `takeDamage` on a melee enemy (`die` removes it from the scene). -/
def MeleeE.takeDamage (e : MeleeE) (amount : ℚ) : MeleeE :=
  let e1 := { e with health := e.health - amount }
  if e1.health ≤ 0 ∧ e1.isDead = false then { e1 with isDead := true, inScene := false }
  else e1

/-- State of a `SplittingMeleeEnemy`. -/
structure SplitEnemy where
  pos : Vec3
  health : ℚ
  maxHealth : ℚ
  isDead : Bool
  hasSplit : Bool
  inScene : Bool
  waveNumber : Nat
deriving DecidableEq, Repr

/-- Offset of the first spawned child. -/
def splitOffset1 : Vec3 := ⟨1 / 2, 0, 1 / 2⟩

/-- Offset of the second spawned child. -/
def splitOffset2 : Vec3 := ⟨-(1 / 2), 0, -(1 / 2)⟩

/-- `SplittingMeleeEnemy.die`: if `hasSplit` is still false, set it, build two
melee children at the offset positions, damage each by 75% of its max health,
and hand them to the enemy manager; then run the base `die` (death flag set,
mesh removed from the scene).  The returned list is the spawned children. -/
def SplitEnemy.die (e : SplitEnemy) : SplitEnemy × List MeleeE :=
  if e.hasSplit = false then
    let e1 := { e with hasSplit := true }
    let c1 := MeleeE.spawn (Vec3.add e.pos splitOffset1) e.waveNumber
    let c2 := MeleeE.spawn (Vec3.add e.pos splitOffset2) e.waveNumber
    let c1d := c1.takeDamage (c1.maxHealth * (3 / 4))
    let c2d := c2.takeDamage (c2.maxHealth * (3 / 4))
    ({ e1 with isDead := true, inScene := false }, [c1d, c2d])
  else ({ e with isDead := true, inScene := false }, [])

/-- A concrete wave-10 state with the boss alive. -/
def demoBossState : EMState :=
  { EMState.init with waveNumber := 10, bossSpawned := true }

/-- A concrete splitting enemy that has not split yet. -/
def demoSplitter : SplitEnemy :=
  { pos := ⟨1, 0, 2⟩, health := 0, maxHealth := 30, isDead := false,
    hasSplit := false, inScene := true, waveNumber := 1 }

/-! ## Direction-vector guards (C9 sites)

Each definition computes the vector that the site hands to
`THREE.Vector3.normalize` after its (possible) zero-direction substitution.
`normalize` divides by the vector's length (or by 1 when the length is 0), so
the normalization divisor is nonzero exactly when the vector below is nonzero
or was substituted. -/

/-- The fixed fallback direction `(1, 0, 0)`. -/
def defaultDirection : Vec3 := ⟨1, 0, 0⟩

/-- `RangedEnemy.shoot`: direction to the player, replaced by the default when
`lengthSq() < 0.001`, then normalized. -/
def rangedShootPreNormalize (playerPos enemyPos : Vec3) : Vec3 :=
  let d := Vec3.sub playerPos enemyPos
  if d.lengthSq < 1 / 1000 then defaultDirection else d

/-- `ProjectilePool.getProjectile`: the stored direction is
`direction.lengthSq() > 0.001 ? direction.clone().normalize() : (1, 0, 0)`;
this is the vector before the normalization in the first branch (the fallback
branch stores the already-unit default). -/
def poolValidDirectionPreNormalize (dir : Vec3) : Vec3 :=
  if 1 / 1000 < dir.lengthSq then dir else defaultDirection

/-- `ProjectilePool.update`: before advancing a projectile, a direction with
`lengthSq() < 0.001` is reset to `(1, 0, 0)`. -/
def poolAdvanceDirection (dir : Vec3) : Vec3 :=
  if dir.lengthSq < 1 / 1000 then defaultDirection else dir

/-- `Projectile.fire` (`entities/Projectile.ts`): the direction argument is
copied and normalized with no zero-direction substitution. -/
def fireDirectionPreNormalize (dir : Vec3) : Vec3 := dir

/-! ## Lemmas about the core object pool -/

theorem mem_setAdd {l : List Nat} {x y : Nat} : y ∈ setAdd l x ↔ y ∈ l ∨ y = x := by
  unfold setAdd
  by_cases hx : x ∈ l
  · rw [if_pos hx]
    constructor
    · exact fun h => Or.inl h
    · rintro (h | rfl)
      · exact h
      · exact hx
  · rw [if_neg hx]
    simp

theorem setAdd_nodup {l : List Nat} {x : Nat} (h : l.Nodup) : (setAdd l x).Nodup := by
  unfold setAdd
  by_cases hx : x ∈ l
  · rw [if_pos hx]
    exact h
  · rw [if_neg hx]
    refine List.Nodup.append h (List.nodup_singleton x) ?_
    intro a ha hb
    simp only [List.mem_singleton] at hb
    subst hb
    exact hx ha

theorem setAdd_length_of_not_mem {l : List Nat} {x : Nat} (h : x ∉ l) :
    (setAdd l x).length = l.length + 1 := by
  unfold setAdd
  rw [if_neg h]
  simp

theorem setDelete_of_not_mem {l : List Nat} {x : Nat} (h : x ∉ l) : setDelete l x = l := by
  unfold setDelete
  refine List.filter_eq_self.mpr ?_
  intro b hb
  simp only [ne_eq, decide_eq_true_eq]
  exact fun heq => h (heq ▸ hb)

theorem setDelete_cons_self {t : List Nat} {x : Nat} :
    setDelete (x :: t) x = setDelete t x := by
  simp [setDelete]

theorem setDelete_cons_ne {a : Nat} {t : List Nat} {x : Nat} (h : a ≠ x) :
    setDelete (a :: t) x = a :: setDelete t x := by
  simp [setDelete, h]

theorem setDelete_length {l : List Nat} {x : Nat} (hd : l.Nodup) (hx : x ∈ l) :
    (setDelete l x).length + 1 = l.length := by
  induction l with
  | nil => cases hx
  | cons a t ih =>
    by_cases hax : a = x
    · subst hax
      have hxt : a ∉ t := (List.nodup_cons.mp hd).1
      rw [setDelete_cons_self, setDelete_of_not_mem hxt]
      simp
    · have hx2 : x ∈ t := by
        rcases List.mem_cons.mp hx with h1 | h1
        · exact absurd h1.symm hax
        · exact h1
      rw [setDelete_cons_ne hax]
      have hrec := ih (List.nodup_cons.mp hd).2 hx2
      simp only [List.length_cons]
      omega

theorem pool_inv_init (hasReset : Bool) (initialSize maxSize : Nat) :
    (PoolState.init hasReset initialSize maxSize).Inv := by
  refine ⟨?_, ?_, ?_, ?_, ?_, ?_⟩ <;>
    simp [PoolState.init, List.mem_range, List.nodup_range]

theorem pool_inv_get {s : PoolState} (h : s.Inv) : (s.get).2.1.Inv := by
  obtain ⟨hand, havd, hdisj, hab, havb, hlen⟩ := h
  unfold PoolState.get
  rcases hav : s.availableObjects.getLast? with _ | obj
  · -- construct-new branch: the available list is empty
    have hemp : s.availableObjects = [] := by
      cases hl : s.availableObjects with
      | nil => rfl
      | cons a t =>
        exfalso
        rw [hl] at hav
        simp [List.getLast?_eq_getLast] at hav
    have hnotmem : s.totalConstructed ∉ s.activeObjects := fun hmem =>
      lt_irrefl _ (hab _ hmem)
    rw [hemp] at hlen
    simp only [List.length_nil, Nat.add_zero] at hlen
    refine ⟨setAdd_nodup hand, by simp [PoolState.handOut, hemp, havd], ?_, ?_, ?_, ?_⟩
    · intro x hx
      simp [PoolState.handOut, hemp]
    · intro x hx
      simp only [PoolState.handOut] at hx
      rcases mem_setAdd.mp hx with hx | rfl
      · exact Nat.lt_succ_of_lt (hab _ hx)
      · exact Nat.lt_succ_self _
    · intro x hx
      simp [PoolState.handOut, hemp] at hx
    · simp only [PoolState.handOut, hemp]
      rw [setAdd_length_of_not_mem hnotmem]
      simp only [List.length_nil]
      omega
  · -- pop branch: the available list ends in `obj`
    rcases List.eq_nil_or_concat s.availableObjects with hemp | ⟨front, last, hl⟩
    · rw [hemp] at hav
      simp at hav
    rw [List.concat_eq_append] at hl
    have hobj : obj = last := by
      rw [hl, List.getLast?_concat] at hav
      exact (Option.some_inj.mp hav).symm
    subst hobj
    have hmemav : obj ∈ s.availableObjects := by
      rw [hl]
      simp
    have hnotact : obj ∉ s.activeObjects := fun hx => hdisj _ hx hmemav
    have hdrop : s.availableObjects.dropLast = front := by
      rw [hl, List.dropLast_concat]
    have hfrontnodup : front.Nodup := by
      have hsub : s.availableObjects.dropLast.Nodup :=
        (List.dropLast_sublist s.availableObjects).nodup havd
      rwa [hdrop] at hsub
    have hobjfront : obj ∉ front := by
      intro hx
      have hnn : ¬ (front ++ [obj]).Nodup := by
        intro hd
        rcases List.nodup_append.mp hd with ⟨-, -, hdisj2⟩
        exact hdisj2 hx (by simp)
      rw [hl] at havd
      exact hnn havd
    refine ⟨setAdd_nodup hand, ?_, ?_, ?_, ?_, ?_⟩
    · simpa [PoolState.handOut, hdrop] using hfrontnodup
    · intro x hx
      simp only [PoolState.handOut, hdrop] at hx ⊢
      rcases mem_setAdd.mp hx with hx | rfl
      · intro hmem
        exact hdisj _ hx (by rw [hl]; exact List.mem_append_left _ hmem)
      · exact hobjfront
    · intro x hx
      simp only [PoolState.handOut] at hx
      rcases mem_setAdd.mp hx with hx | rfl
      · exact hab _ hx
      · exact havb _ hmemav
    · intro x hx
      simp only [PoolState.handOut, hdrop] at hx
      exact havb _ (by rw [hl]; exact List.mem_append_left _ hx)
    · simp only [PoolState.handOut, hdrop]
      rw [setAdd_length_of_not_mem hnotact]
      have : s.availableObjects.length = front.length + 1 := by
        rw [hl]
        simp
      omega

theorem pool_inv_release {s : PoolState} (h : s.Inv) (obj : Nat) :
    (s.release obj).Inv := by
  obtain ⟨hand, havd, hdisj, hab, havb, hlen⟩ := h
  unfold PoolState.release
  split
  · rename_i hmem
    have hnotav : obj ∉ s.availableObjects := hdisj _ hmem
    have hfilter_nodup : (setDelete s.activeObjects obj).Nodup := List.Nodup.filter _ hand
    have hmem_del : ∀ x, x ∈ setDelete s.activeObjects obj ↔ x ∈ s.activeObjects ∧ x ≠ obj := by
      intro x
      simp [setDelete]
    have hdel_len : (setDelete s.activeObjects obj).length + 1 = s.activeObjects.length :=
      setDelete_length hand hmem
    refine ⟨hfilter_nodup, ?_, ?_, ?_, ?_, ?_⟩
    · refine List.Nodup.append havd (List.nodup_singleton obj) ?_
      intro a ha hb
      simp only [List.mem_singleton] at hb
      subst hb
      exact hnotav ha
    · intro x hx
      rcases (hmem_del x).mp hx with ⟨hxa, hxne⟩
      intro hmem2
      rcases List.mem_append.mp hmem2 with h2 | h2
      · exact hdisj _ hxa h2
      · simp only [List.mem_singleton] at h2
        exact hxne h2
    · intro x hx
      exact hab _ ((hmem_del x).mp hx).1
    · intro x hx
      rcases List.mem_append.mp hx with h2 | h2
      · exact havb _ h2
      · simp only [List.mem_singleton] at h2
        subst h2
        exact hab _ hmem
    · simp only [List.length_append, List.length_singleton]
      omega
  · exact ⟨hand, havd, hdisj, hab, havb, hlen⟩

theorem pool_inv_step {s : PoolState} (h : s.Inv) (op : PoolOp) :
    (s.stepOp op).Inv := by
  cases op with
  | acquire => exact pool_inv_get h
  | release obj => exact pool_inv_release h obj

theorem pool_inv_runOps {s : PoolState} (h : s.Inv) (ops : List PoolOp) :
    (s.runOps ops).Inv := by
  induction ops generalizing s with
  | nil => exact h
  | cons op rest ih => exact ih (pool_inv_step h op)

/-- C4.  For every pool configuration and every acquire/release sequence, the
active set and the available list are disjoint, and their sizes sum to the
total number of objects the pool ever constructed (pre-warmed plus
on-demand). -/
theorem objectPool_conservation (hasReset : Bool) (initialSize maxSize : Nat)
    (ops : List PoolOp) :
    (∀ x ∈ ((PoolState.init hasReset initialSize maxSize).runOps ops).activeObjects,
        x ∉ ((PoolState.init hasReset initialSize maxSize).runOps ops).availableObjects) ∧
    ((PoolState.init hasReset initialSize maxSize).runOps ops).activeObjects.length +
        ((PoolState.init hasReset initialSize maxSize).runOps ops).availableObjects.length =
      ((PoolState.init hasReset initialSize maxSize).runOps ops).totalConstructed := by
  have h := pool_inv_runOps (pool_inv_init hasReset initialSize maxSize) ops
  exact ⟨h.2.2.1, h.2.2.2.2.2⟩

/-- C10.  Every object returned by `get` — popped, brand-new, or pre-warmed —
has the reset function applied as the last action before it is handed out, and
is in the active set when `get` returns. -/
theorem objectPool_get_resets_before_handout (s : PoolState) (h : s.hasResetFn = true) :
    ((s.get).2.2).getLast? = some (PoolEvent.didReset (s.get).1) ∧
    (s.get).1 ∈ (s.get).2.1.activeObjects := by
  unfold PoolState.get
  rcases hav : s.availableObjects.getLast? with _ | obj
  · constructor
    · simp [PoolState.handOut, h, List.getLast?_concat]
    · simp [PoolState.handOut, mem_setAdd]
  · constructor
    · simp [PoolState.handOut, h, List.getLast?_concat]
    · simp [PoolState.handOut, mem_setAdd]

theorem pool_get_empty (s : PoolState) (hempty : s.availableObjects = []) :
    s.get = PoolState.handOut { s with totalConstructed := s.totalConstructed + 1 }
      s.totalConstructed
      ((if 0 < s.maxSize ∧ s.maxSize ≤ s.activeObjects.length then [PoolEvent.warned]
        else []) ++ [PoolEvent.constructed s.totalConstructed]) := by
  unfold PoolState.get
  rw [hempty]
  rfl

theorem handOut_fst (s : PoolState) (obj : Nat) (evs : List PoolEvent) :
    (PoolState.handOut s obj evs).1 = obj := rfl

theorem handOut_totalConstructed (s : PoolState) (obj : Nat) (evs : List PoolEvent) :
    (PoolState.handOut s obj evs).2.1.totalConstructed = s.totalConstructed := rfl

theorem mem_handOut_events (s : PoolState) (obj : Nat) (evs : List PoolEvent)
    (ev : PoolEvent) :
    ev ∈ (PoolState.handOut s obj evs).2.2 ↔ ev ∈ evs ∨
      (s.hasResetFn = true ∧ ev = PoolEvent.didReset obj) := by
  unfold PoolState.handOut
  by_cases hr : s.hasResetFn <;> simp [hr]

/-- C3 (amended).  The core pool's `get` with an empty free list: at or above
a positive `maxSize` it warns and still returns a newly constructed object;
under capacity (or unbounded) it constructs silently. -/
theorem objectPool_get_fails_open (s : PoolState) (hempty : s.availableObjects = []) :
    (0 < s.maxSize → s.maxSize ≤ s.activeObjects.length →
      (s.get).1 = s.totalConstructed ∧
      PoolEvent.warned ∈ (s.get).2.2 ∧
      PoolEvent.constructed (s.get).1 ∈ (s.get).2.2 ∧
      (s.get).2.1.totalConstructed = s.totalConstructed + 1) ∧
    ((s.maxSize = 0 ∨ s.activeObjects.length < s.maxSize) →
      (s.get).1 = s.totalConstructed ∧
      PoolEvent.warned ∉ (s.get).2.2 ∧
      PoolEvent.constructed (s.get).1 ∈ (s.get).2.2 ∧
      (s.get).2.1.totalConstructed = s.totalConstructed + 1) := by
  rw [pool_get_empty s hempty]
  constructor
  · intro hpos hcap
    rw [if_pos ⟨hpos, hcap⟩]
    refine ⟨rfl, ?_, ?_, rfl⟩
    · rw [mem_handOut_events]
      simp
    · rw [handOut_fst, mem_handOut_events]
      simp
  · intro hunder
    have hwarn : ¬ (0 < s.maxSize ∧ s.maxSize ≤ s.activeObjects.length) := by
      rcases hunder with h0 | hlt
      · simp [h0]
      · rintro ⟨-, hc⟩
        omega
    rw [if_neg hwarn]
    refine ⟨rfl, ?_, ?_, rfl⟩
    · rw [mem_handOut_events]
      simp
    · rw [handOut_fst, mem_handOut_events]
      simp

/-- C3 witness: in the scenario pool (pre-warm 3, maxSize 10), the 11th
acquisition hits capacity, warns and still returns the newly constructed
object, while the 4th acquisition constructs silently. -/
theorem objectPool_get_fails_open_witness :
    ((poolAfter 10).availableObjects = [] ∧
      0 < (poolAfter 10).maxSize ∧
      (poolAfter 10).maxSize ≤ (poolAfter 10).activeObjects.length ∧
      PoolEvent.warned ∈ ((poolAfter 10).get).2.2 ∧
      ((poolAfter 10).get).1 = (poolAfter 10).totalConstructed) ∧
    ((poolAfter 3).availableObjects = [] ∧
      (poolAfter 3).activeObjects.length < (poolAfter 3).maxSize ∧
      PoolEvent.warned ∉ ((poolAfter 3).get).2.2 ∧
      ((poolAfter 3).get).1 = (poolAfter 3).totalConstructed) :=
  ⟨⟨by decide, by decide, by decide,
    ((objectPool_get_fails_open (poolAfter 10) (by decide)).1 (by decide) (by decide)).2.1,
    ((objectPool_get_fails_open (poolAfter 10) (by decide)).1 (by decide) (by decide)).1⟩,
   ⟨by decide, by decide,
    ((objectPool_get_fails_open (poolAfter 3) (by decide)).2 (Or.inr (by decide))).2.1,
    ((objectPool_get_fails_open (poolAfter 3) (by decide)).2 (Or.inr (by decide))).1⟩⟩

/-- C3 counterexample: in the second pool implementation, the same scenario's
11th acquisition (no free object, at `maxSize`) warns and returns `null`
instead of a newly constructed object, so the claim fails for that pool. -/
theorem objectPool_second_impl_returns_null_at_capacity :
    (((GPoolState.init 3 10).runGets 10).get).1 = none ∧
    PoolEvent.warned ∈ (((GPoolState.init 3 10).runGets 10).get).2.2 := by
  constructor <;> decide

/-! ## Spatial grid lemmas (C1) -/

theorem mem_keyRange {lo hi c : ℤ} : c ∈ keyRange lo hi ↔ lo ≤ c ∧ c ≤ hi := by
  unfold keyRange
  constructor
  · intro h
    rcases List.mem_map.mp h with ⟨n, hn, heq⟩
    rw [List.mem_range] at hn
    omega
  · rintro ⟨ha, hb⟩
    refine List.mem_map.mpr ⟨(c - lo).toNat, ?_, ?_⟩
    · rw [List.mem_range]
      omega
    · omega

theorem mem_boxKeys {s x1 x2 y1 y2 z1 z2 : ℤ} {k : CellKey} :
    k ∈ boxKeys s x1 x2 y1 y2 z1 z2 ↔
      (x1.fdiv s ≤ k.1 ∧ k.1 ≤ x2.fdiv s) ∧
      (y1.fdiv s ≤ k.2.1 ∧ k.2.1 ≤ y2.fdiv s) ∧
      (z1.fdiv s ≤ k.2.2 ∧ k.2.2 ≤ z2.fdiv s) := by
  obtain ⟨a, b, c⟩ := k
  unfold boxKeys
  constructor
  · intro h
    rcases List.mem_flatMap.mp h with ⟨cx, hcx, h2⟩
    rcases List.mem_flatMap.mp h2 with ⟨cy, hcy, h3⟩
    rcases List.mem_map.mp h3 with ⟨cz, hcz, heq⟩
    obtain ⟨rfl, rfl, rfl⟩ := Prod.mk.injEq .. ▸ heq
    exact ⟨mem_keyRange.mp hcx, mem_keyRange.mp hcy, mem_keyRange.mp hcz⟩
  · rintro ⟨ha, hb, hc⟩
    refine List.mem_flatMap.mpr ⟨a, mem_keyRange.mpr ha, ?_⟩
    refine List.mem_flatMap.mpr ⟨b, mem_keyRange.mpr hb, ?_⟩
    exact List.mem_map.mpr ⟨c, mem_keyRange.mpr hc, rfl⟩

theorem fdiv_mono_of_le {a b s : ℤ} (hs : 0 < s) (h : a ≤ b) :
    a.fdiv s ≤ b.fdiv s := by
  rw [Int.fdiv_eq_ediv _ (le_of_lt hs), Int.fdiv_eq_ediv _ (le_of_lt hs)]
  exact Int.ediv_le_ediv hs h

theorem mem_setAddObj {l : List SObj} {o x : SObj} :
    x ∈ setAddObj l o ↔ x ∈ l ∨ x = o := by
  unfold setAddObj
  by_cases ho : o ∈ l
  · rw [if_pos ho]
    constructor
    · exact Or.inl
    · rintro (h | rfl)
      · exact h
      · exact ho
  · rw [if_neg ho]
    simp

theorem setAddObj_nodup {l : List SObj} {o : SObj} (h : l.Nodup) :
    (setAddObj l o).Nodup := by
  unfold setAddObj
  by_cases ho : o ∈ l
  · rw [if_pos ho]
    exact h
  · rw [if_neg ho]
    refine List.Nodup.append h (List.nodup_singleton o) ?_
    intro a ha hb
    simp only [List.mem_singleton] at hb
    subst hb
    exact ho ha

theorem mem_foldl_setAddObj (l : List SObj) :
    ∀ (acc : List SObj) (x : SObj),
      x ∈ l.foldl setAddObj acc ↔ x ∈ acc ∨ x ∈ l := by
  induction l with
  | nil => intro acc x; simp
  | cons a t ih =>
    intro acc x
    simp only [List.foldl_cons, ih, mem_setAddObj, List.mem_cons]
    tauto

theorem foldl_setAddObj_nodup (l : List SObj) :
    ∀ acc : List SObj, acc.Nodup → (l.foldl setAddObj acc).Nodup := by
  induction l with
  | nil => intro acc h; exact h
  | cons a t ih =>
    intro acc h
    exact ih _ (setAddObj_nodup h)

theorem mem_gather (keys : List CellKey) (cells : CellKey → List SObj) :
    ∀ (acc : List SObj) (x : SObj),
      x ∈ keys.foldl (fun acc k => (cells k).foldl setAddObj acc) acc ↔
        x ∈ acc ∨ ∃ k ∈ keys, x ∈ cells k := by
  induction keys with
  | nil => intro acc x; simp
  | cons k0 rest ih =>
    intro acc x
    simp only [List.foldl_cons, ih, mem_foldl_setAddObj, List.mem_cons]
    constructor
    · rintro ((h | h) | ⟨k, hk, hck⟩)
      · exact Or.inl h
      · exact Or.inr ⟨k0, Or.inl rfl, h⟩
      · exact Or.inr ⟨k, Or.inr hk, hck⟩
    · rintro (h | ⟨k, (rfl | hk), hck⟩)
      · exact Or.inl (Or.inl h)
      · exact Or.inl (Or.inr hck)
      · exact Or.inr ⟨k, hk, hck⟩

theorem gather_nodup (keys : List CellKey) (cells : CellKey → List SObj) :
    ∀ acc : List SObj, acc.Nodup →
      (keys.foldl (fun acc k => (cells k).foldl setAddObj acc) acc).Nodup := by
  induction keys with
  | nil => intro acc h; exact h
  | cons k0 rest ih =>
    intro acc h
    exact ih _ (foldl_setAddObj_nodup _ _ h)

theorem mem_pushCells (keys : List CellKey) :
    ∀ (c : CellKey → List SObj) (o : SObj) (k : CellKey) (x : SObj),
      x ∈ pushCells c keys o k ↔ x ∈ c k ∨ (k ∈ keys ∧ x = o) := by
  induction keys with
  | nil => intro c o k x; simp [pushCells]
  | cons k0 rest ih =>
    intro c o k x
    show x ∈ pushCells (Function.update c k0 (c k0 ++ [o])) rest o k ↔ _
    rw [ih, Function.update_apply]
    by_cases hk : k = k0
    · subst hk
      rw [if_pos rfl]
      simp only [List.mem_append, List.mem_singleton, List.mem_cons]
      tauto
    · rw [if_neg hk]
      simp only [List.mem_cons]
      constructor
      · rintro (h | ⟨hk2, rfl⟩)
        · exact Or.inl h
        · exact Or.inr ⟨Or.inr hk2, rfl⟩
      · rintro (h | ⟨rfl | hk2, rfl⟩)
        · exact Or.inl h
        · exact absurd rfl hk
        · exact Or.inr ⟨hk2, rfl⟩

theorem mem_filterCells (keys : List CellKey) :
    ∀ (c : CellKey → List SObj) (i : Nat) (k : CellKey) (x : SObj),
      x ∈ filterCells c keys i k ↔ x ∈ c k ∧ (k ∈ keys → x.id ≠ i) := by
  induction keys with
  | nil => intro c i k x; simp [filterCells]
  | cons k0 rest ih =>
    intro c i k x
    show x ∈ filterCells (Function.update c k0
        ((c k0).filter (fun p => p.id ≠ i))) rest i k ↔ _
    rw [ih, Function.update_apply]
    by_cases hk : k = k0
    · subst hk
      rw [if_pos rfl]
      simp only [List.mem_filter, List.mem_cons, ne_eq, decide_not,
        Bool.not_eq_eq_eq_not, Bool.not_true, decide_eq_false_iff_not]
      tauto
    · rw [if_neg hk]
      simp only [List.mem_cons]
      constructor
      · rintro ⟨h, hc⟩
        refine ⟨h, ?_⟩
        rintro (rfl | hk2)
        · exact absurd rfl hk
        · exact hc hk2
      · rintro ⟨h, hc⟩
        exact ⟨h, fun hk2 => hc (Or.inr hk2)⟩

theorem mapSetObj_of_fresh {l : List SObj} {o : SObj}
    (h : ∀ p ∈ l, p.id ≠ o.id) : mapSetObj l o = l ++ [o] := by
  unfold mapSetObj
  rw [if_neg]
  intro hany
  rw [List.any_eq_true] at hany
  obtain ⟨p, hp, hpe⟩ := hany
  exact h p hp (by simpa using hpe)

theorem wf_empty {s : ℤ} (hs : 0 < s) : (SpatialGrid.empty s).Wf := by
  refine ⟨hs, ?_, ?_, ?_⟩
  · intro o ho
    simp [SpatialGrid.empty] at ho
  · simp [SpatialGrid.empty]
  · intro k o
    simp [SpatialGrid.empty]

theorem wf_insert {g : SpatialGrid} {o : SObj} (hw : g.Wf) (hr : 0 ≤ o.radius)
    (hfresh : ∀ p ∈ g.objects, p.id ≠ o.id) : (g.insert o).Wf := by
  obtain ⟨hs, hrad, hnd, hcells⟩ := hw
  have hobj : (g.insert o).objects = g.objects ++ [o] := mapSetObj_of_fresh hfresh
  refine ⟨hs, ?_, ?_, ?_⟩
  · intro p hp
    rw [hobj, List.mem_append] at hp
    rcases hp with hp | hp
    · exact hrad p hp
    · simp only [List.mem_singleton] at hp
      subst hp
      exact hr
  · rw [hobj, List.map_append, List.nodup_append]
    refine ⟨hnd, by simp, ?_⟩
    intro a ha hb
    simp only [List.map_cons, List.map_nil, List.mem_singleton] at hb
    obtain ⟨p, hp, rfl⟩ := List.mem_map.mp ha
    exact hfresh p hp hb
  · intro k x
    show x ∈ pushCells g.cells (cellsForObject g.cellSize o) o k ↔ _
    rw [mem_pushCells, hobj, hcells k x]
    constructor
    · rintro (⟨hxo, hk⟩ | ⟨hkk, rfl⟩)
      · exact ⟨List.mem_append_left _ hxo, hk⟩
      · exact ⟨List.mem_append_right _ (by simp), hkk⟩
    · rintro ⟨hmem, hk⟩
      rcases List.mem_append.mp hmem with h1 | h1
      · exact Or.inl ⟨h1, hk⟩
      · simp only [List.mem_singleton] at h1
        subst h1
        exact Or.inr ⟨hk, rfl⟩

theorem remove_no_id (g : SpatialGrid) (i : Nat) :
    ∀ p ∈ (g.remove i).objects, p.id ≠ i := by
  unfold SpatialGrid.remove
  split
  next hf =>
    intro p hp
    have hne := List.find?_eq_none.mp hf p hp
    simpa using hne
  next o hf =>
    intro p hp
    have hne := List.of_mem_filter hp
    simpa using hne

theorem wf_remove {g : SpatialGrid} (i : Nat) (hw : g.Wf) : (g.remove i).Wf := by
  obtain ⟨hs, hrad, hnd, hcells⟩ := hw
  unfold SpatialGrid.remove
  split
  next => exact ⟨hs, hrad, hnd, hcells⟩
  next o hf =>
    have hoin : o ∈ g.objects := List.mem_of_find?_eq_some hf
    have hoid : o.id = i := by
      have hpred := List.find?_some hf
      simpa using hpred
    refine ⟨hs, ?_, ?_, ?_⟩
    · intro p hp
      exact hrad p (List.mem_of_mem_filter hp)
    · exact List.Nodup.sublist (List.Sublist.map _ (List.filter_sublist _)) hnd
    · intro k x
      show x ∈ filterCells g.cells (cellsForObject g.cellSize o) i k ↔
        x ∈ g.objects.filter (fun p => p.id ≠ i) ∧ k ∈ cellsForObject g.cellSize x
      rw [mem_filterCells, hcells k x]
      constructor
      · rintro ⟨⟨hxobj, hxk⟩, hcond⟩
        by_cases hxi : x.id = i
        · exfalso
          have hxo : x = o :=
            List.inj_on_of_nodup_map hnd hxobj hoin (by rw [hxi, hoid])
          exact hcond (hxo ▸ hxk) hxi
        · refine ⟨List.mem_filter.mpr ⟨hxobj, by simpa using hxi⟩, hxk⟩
      · rintro ⟨hxf, hxk⟩
        have hxobj := List.mem_of_mem_filter hxf
        have hxi : x.id ≠ i := by simpa using List.of_mem_filter hxf
        exact ⟨⟨hxobj, hxk⟩, fun _ => hxi⟩

theorem wf_updateObj {g : SpatialGrid} {o : SObj} (hw : g.Wf) (hr : 0 ≤ o.radius) :
    (g.updateObj o).Wf :=
  wf_insert (wf_remove o.id hw) hr (remove_no_id g o.id)

theorem wf_applyOps (ops : List GridOp) :
    ∀ g : SpatialGrid, g.Wf → hygienicFrom g ops = true →
      (ops.foldl SpatialGrid.applyOp g).Wf := by
  induction ops with
  | nil => intro g hw _; exact hw
  | cons op rest ih =>
    intro g hw hh
    cases op with
    | ins o =>
      rw [hygienicFrom] at hh
      simp only [Bool.and_eq_true, decide_eq_true_eq, List.all_eq_true] at hh
      obtain ⟨⟨h1, h2⟩, h3⟩ := hh
      refine ih _ (wf_insert hw h1 ?_) h3
      intro p hp
      have := h2 p hp
      simpa using this
    | upd o =>
      rw [hygienicFrom] at hh
      simp only [Bool.and_eq_true, decide_eq_true_eq] at hh
      exact ih _ (wf_updateObj hw hh.1) hh.2
    | rem i =>
      rw [hygienicFrom] at hh
      exact ih _ (wf_remove i hw) hh

theorem sq_le_bounds {d r : ℤ} (hr : 0 ≤ r) (h : d ^ 2 ≤ r ^ 2) : -r ≤ d ∧ d ≤ r := by
  constructor <;> nlinarith [sq_nonneg (d + r), sq_nonneg (d - r)]

theorem queryRadius_mem {g : SpatialGrid} (hw : g.Wf) {cx cy cz r : ℤ} (hr : 0 ≤ r)
    {x : SObj} :
    x ∈ g.queryRadius cx cy cz r ↔ x ∈ g.objects ∧ distSqZ x cx cy cz ≤ r * r := by
  obtain ⟨hs, hrad, _, hcells⟩ := hw
  show x ∈ ((queryKeys g.cellSize cx cy cz r).foldl
      (fun acc k => (g.cells k).foldl setAddObj acc) []).filter
        (fun o => distSqZ o cx cy cz ≤ r * r) ↔ _
  rw [List.mem_filter, mem_gather]
  simp only [List.not_mem_nil, false_or, decide_eq_true_eq]
  constructor
  · rintro ⟨⟨k, _, hxmem⟩, hd⟩
    exact ⟨((hcells k x).mp hxmem).1, hd⟩
  · rintro ⟨hxobj, hd⟩
    refine ⟨⟨(x.x.fdiv g.cellSize, x.y.fdiv g.cellSize, x.z.fdiv g.cellSize), ?_, ?_⟩, hd⟩
    · have hd2 : distSqZ x cx cy cz ≤ r * r := hd
      simp only [distSqZ] at hd2
      have hdx : (x.x - cx) ^ 2 ≤ r ^ 2 := by
        nlinarith [sq_nonneg (x.y - cy), sq_nonneg (x.z - cz)]
      have hdy : (x.y - cy) ^ 2 ≤ r ^ 2 := by
        nlinarith [sq_nonneg (x.x - cx), sq_nonneg (x.z - cz)]
      have hdz : (x.z - cz) ^ 2 ≤ r ^ 2 := by
        nlinarith [sq_nonneg (x.x - cx), sq_nonneg (x.y - cy)]
      obtain ⟨hx1, hx2⟩ := sq_le_bounds hr hdx
      obtain ⟨hy1, hy2⟩ := sq_le_bounds hr hdy
      obtain ⟨hz1, hz2⟩ := sq_le_bounds hr hdz
      unfold queryKeys
      rw [mem_boxKeys]
      refine ⟨⟨?_, ?_⟩, ⟨?_, ?_⟩, ?_, ?_⟩ <;>
        exact fdiv_mono_of_le hs (by omega)
    · rw [hcells]
      refine ⟨hxobj, ?_⟩
      have hxr : 0 ≤ x.radius := hrad x hxobj
      unfold cellsForObject
      rw [mem_boxKeys]
      refine ⟨⟨?_, ?_⟩, ⟨?_, ?_⟩, ?_, ?_⟩ <;>
        exact fdiv_mono_of_le hs (by omega)

theorem queryRadius_nodup (g : SpatialGrid) (cx cy cz r : ℤ) :
    (g.queryRadius cx cy cz r).Nodup := by
  show (((queryKeys g.cellSize cx cy cz r).foldl
      (fun acc k => (g.cells k).foldl setAddObj acc) []).filter
        (fun o => distSqZ o cx cy cz ≤ r * r)).Nodup
  exact List.Nodup.filter _
    (gather_nodup (queryKeys g.cellSize cx cy cz r) g.cells [] List.nodup_nil)

theorem queryRadius_toFinset_eq {g : SpatialGrid} (hw : g.Wf) {cx cy cz r : ℤ}
    (hr : 0 ≤ r) :
    (g.queryRadius cx cy cz r).toFinset = (bruteForce g.objects cx cy cz r).toFinset := by
  ext a
  simp only [List.mem_toFinset]
  rw [queryRadius_mem hw hr]
  unfold bruteForce
  rw [List.mem_filter]
  simp [hr]

theorem wf_applyOps_of_hygienic {s : ℤ} {ops : List GridOp} (hs : 0 < s)
    (hh : hygienicFrom (SpatialGrid.empty s) ops = true) : (applyOps s ops).Wf := by
  unfold applyOps
  exact wf_applyOps ops _ (wf_empty hs) hh

/-! ## Weapon collision lemmas (C2, C5) -/

theorem isDirectHitBy_pid {pid : Nat} {ev : HitEvent}
    (h : HitEvent.isDirectHitBy pid ev = true) :
    ev.pid = pid ∧ HitEvent.isDamaged ev = true := by
  cases ev with
  | damaged p j a =>
    simp [HitEvent.isDirectHitBy] at h
    simp [HitEvent.pid, HitEvent.isDamaged, h]
  | poisonTick p j a => simp [HitEvent.isDirectHitBy] at h

theorem applyPoisonSync_events (cfg : WeaponCfg) (pid j : Nat) (e : CEnemy) :
    ∀ ev ∈ (applyPoisonSync cfg pid j e).2,
      ev.pid = pid ∧ ev.enemyIdx = j ∧ HitEvent.isDamaged ev = false := by
  unfold applyPoisonSync
  split
  · simp
  · split
    · simp
    · intro ev hev
      simp only [List.mem_singleton] at hev
      subst hev
      simp [HitEvent.pid, HitEvent.enemyIdx, HitEvent.isDamaged]

theorem hitScan_events_pid (cfg : WeaponCfg) (crit : Nat → Nat → Bool)
    (p : WProjectile) :
    ∀ (enemies : List CEnemy) (j : Nat),
      ∀ ev ∈ (hitScan cfg crit p j enemies).events, ev.pid = p.id := by
  intro enemies
  induction enemies with
  | nil => intro j ev hev; simp [hitScan] at hev
  | cons e rest ih =>
    intro j ev hev
    rw [hitScan] at hev
    split at hev
    · exact ih (j + 1) ev hev
    · split at hev
      · dsimp only at hev
        split at hev
        · rcases List.mem_append.mp hev with hev | hev
          · rcases List.mem_cons.mp hev with rfl | hev
            · rfl
            · split at hev
              · exact (applyPoisonSync_events cfg p.id j _ ev hev).1
              · simp at hev
          · exact ih (j + 1) ev hev
        · rcases List.mem_cons.mp hev with rfl | hev
          · rfl
          · split at hev
            · exact (applyPoisonSync_events cfg p.id j _ ev hev).1
            · simp at hev
      · exact ih (j + 1) ev hev

theorem hitScan_events_idx_ge (cfg : WeaponCfg) (crit : Nat → Nat → Bool)
    (p : WProjectile) :
    ∀ (enemies : List CEnemy) (j : Nat),
      ∀ ev ∈ (hitScan cfg crit p j enemies).events, j ≤ ev.enemyIdx := by
  intro enemies
  induction enemies with
  | nil => intro j ev hev; simp [hitScan] at hev
  | cons e rest ih =>
    intro j ev hev
    rw [hitScan] at hev
    split at hev
    · exact Nat.le_of_succ_le (ih (j + 1) ev hev)
    · split at hev
      · dsimp only at hev
        split at hev
        · rcases List.mem_append.mp hev with hev | hev
          · rcases List.mem_cons.mp hev with rfl | hev
            · exact le_rfl
            · split at hev
              · exact le_of_eq (applyPoisonSync_events cfg p.id j _ ev hev).2.1.symm
              · simp at hev
          · exact Nat.le_of_succ_le (ih (j + 1) ev hev)
        · rcases List.mem_cons.mp hev with rfl | hev
          · exact le_rfl
          · split at hev
            · exact le_of_eq (applyPoisonSync_events cfg p.id j _ ev hev).2.1.symm
            · simp at hev
      · exact Nat.le_of_succ_le (ih (j + 1) ev hev)

theorem hitScan_dead (cfg : WeaponCfg) (crit : Nat → Nat → Bool) (p : WProjectile) :
    ∀ (enemies : List CEnemy) (j k : Nat) (e0 : CEnemy),
      enemies[k]? = some e0 → e0.isDead = true →
      (∃ e1, (hitScan cfg crit p j enemies).enemies[k]? = some e1 ∧
        e1.isDead = true) ∧
      (∀ ev ∈ (hitScan cfg crit p j enemies).events, ev.enemyIdx ≠ j + k) := by
  intro enemies
  induction enemies with
  | nil => intro j k e0 hk; simp at hk
  | cons e rest ih =>
    intro j k e0 hk hd
    match k with
    | 0 =>
      simp only [List.getElem?_cons_zero, Option.some_inj] at hk
      subst hk
      rw [hitScan]
      rw [if_pos hd]
      constructor
      · exact ⟨e, by simp, hd⟩
      · intro ev hev
        have hge := hitScan_events_idx_ge cfg crit p rest (j + 1) ev hev
        omega
    | k + 1 =>
      simp only [List.getElem?_cons_succ] at hk
      rw [hitScan]
      split
      · constructor
        · simpa using ((ih (j + 1) k e0 hk hd).1)
        · intro ev hev
          have := (ih (j + 1) k e0 hk hd).2 ev hev
          omega
      · split
        · dsimp only
          split
          · constructor
            · simpa using ((ih (j + 1) k e0 hk hd).1)
            · intro ev hev
              rcases List.mem_append.mp hev with hev | hev
              · rcases List.mem_cons.mp hev with rfl | hev
                · simp only [HitEvent.enemyIdx]
                  omega
                · split at hev
                  · have := (applyPoisonSync_events cfg p.id j _ ev hev).2.1
                    omega
                  · simp at hev
              · have := (ih (j + 1) k e0 hk hd).2 ev hev
                omega
          · constructor
            · exact ⟨e0, by simpa using hk, hd⟩
            · intro ev hev
              rcases List.mem_cons.mp hev with rfl | hev
              · simp only [HitEvent.enemyIdx]
                omega
              · split at hev
                · have := (applyPoisonSync_events cfg p.id j _ ev hev).2.1
                  omega
                · simp at hev
        · constructor
          · simpa using ((ih (j + 1) k e0 hk hd).1)
          · intro ev hev
            have := (ih (j + 1) k e0 hk hd).2 ev hev
            omega

theorem hitScan_damaged_count (cfg : WeaponCfg) (crit : Nat → Nat → Bool)
    (p : WProjectile) (hp : cfg.hasPiercing = false) :
    ∀ (enemies : List CEnemy) (j : Nat),
      ((hitScan cfg crit p j enemies).events.filter HitEvent.isDamaged).length ≤ 1 := by
  intro enemies
  induction enemies with
  | nil => intro j; simp [hitScan]
  | cons e rest ih =>
    intro j
    rw [hitScan]
    split
    · exact ih (j + 1)
    · split
      · dsimp only
        rw [if_neg (by simp [hp])]
        simp only [List.filter_cons]
        rw [if_pos (by simp [HitEvent.isDamaged])]
        have hprnil : ∀ e1 : CEnemy,
            ((if cfg.hasPoisonDamage = true then applyPoisonSync cfg p.id j e1
              else (e1, [])).2.filter HitEvent.isDamaged) = [] := by
          intro e1
          split
          · rw [List.filter_eq_nil_iff]
            intro ev hev
            simp [(applyPoisonSync_events cfg p.id j e1 ev hev).2.2]
          · simp
        rw [hprnil]
        simp
      · exact ih (j + 1)

theorem hitScan_hit_iff (cfg : WeaponCfg) (crit : Nat → Nat → Bool)
    (p : WProjectile) :
    ∀ (enemies : List CEnemy) (j : Nat),
      (hitScan cfg crit p j enemies).hitEnemy = true ↔
        ∃ ev ∈ (hitScan cfg crit p j enemies).events, HitEvent.isDamaged ev = true := by
  intro enemies
  induction enemies with
  | nil => intro j; simp [hitScan]
  | cons e rest ih =>
    intro j
    rw [hitScan]
    split
    · exact ih (j + 1)
    · split
      · dsimp only
        split
        · constructor
          · intro
            exact ⟨_, List.mem_append_left _ (List.mem_cons_self _ _),
              by simp [HitEvent.isDamaged]⟩
          · intro
            rfl
        · constructor
          · intro
            exact ⟨_, List.mem_cons_self _ _, by simp [HitEvent.isDamaged]⟩
          · intro
            rfl
      · exact ih (j + 1)

theorem hitScan_shouldRemove (cfg : WeaponCfg) (crit : Nat → Nat → Bool)
    (p : WProjectile) (hp : cfg.hasPiercing = false) :
    ∀ (enemies : List CEnemy) (j : Nat),
      (hitScan cfg crit p j enemies).shouldRemove = true := by
  intro enemies
  induction enemies with
  | nil => intro j; simp [hitScan]
  | cons e rest ih =>
    intro j
    rw [hitScan]
    split
    · exact ih (j + 1)
    · split
      · dsimp only
        rw [if_neg (by simp [hp])]
      · exact ih (j + 1)

/-! ## Outer collision-pass lemmas -/

theorem eraseIdx_take_self {α : Type} :
    ∀ (l : List α) (i : Nat), (l.eraseIdx i).take i = l.take i := by
  intro l
  induction l with
  | nil => intro i; simp
  | cons a t ih =>
    intro i
    match i with
    | 0 => simp
    | i + 1 =>
      simp only [List.eraseIdx_cons_succ, List.take_succ_cons]
      rw [ih i]

theorem passFrom_projectiles_sublist (cfg : WeaponCfg) (crit : Nat → Nat → Bool) :
    ∀ (i : Nat) (projs : List WProjectile) (enemies : List CEnemy),
      (passFrom cfg crit i projs enemies).projectiles.Sublist projs := by
  intro i
  induction i with
  | zero => intro projs enemies; exact List.Sublist.refl _
  | succ i ih =>
    intro projs enemies
    rw [passFrom]
    split
    · exact ih projs enemies
    · dsimp only
      split
      · exact (ih _ _).trans (List.eraseIdx_sublist projs i)
      · exact ih _ _

theorem passFrom_events_pid (cfg : WeaponCfg) (crit : Nat → Nat → Bool) :
    ∀ (i : Nat) (projs : List WProjectile) (enemies : List CEnemy),
      ∀ ev ∈ (passFrom cfg crit i projs enemies).events,
        ∃ k, k < i ∧ ∃ q, projs[k]? = some q ∧ ev.pid = q.id := by
  intro i
  induction i with
  | zero => intro projs enemies ev hev; simp [passFrom] at hev
  | succ i ih =>
    intro projs enemies ev hev
    rw [passFrom] at hev
    split at hev
    · obtain ⟨k, hk, q, hq, hpid⟩ := ih projs enemies ev hev
      exact ⟨k, Nat.lt_succ_of_lt hk, q, hq, hpid⟩
    · rename_i p heq
      dsimp only at hev
      rcases List.mem_append.mp hev with hev | hev
      · exact ⟨i, Nat.lt_succ_self i, p, heq,
          hitScan_events_pid cfg crit p enemies 0 ev hev⟩
      · rename_i hrem
        obtain ⟨k, hk, q, hq, hpid⟩ := ih _ _ ev hev
        refine ⟨k, Nat.lt_succ_of_lt hk, q, ?_, hpid⟩
        revert hq
        split
        · rw [List.getElem?_eraseIdx_of_lt projs i k hk]
          exact id
        · exact id

theorem mem_take_of_getElem {α : Type} (l : List α) (k i : Nat) (a : α)
    (hki : k < i) (hk : l[k]? = some a) : a ∈ l.take i := by
  have hkt : (l.take i)[k]? = some a := by
    rw [List.getElem?_take, if_pos hki]
    exact hk
  exact List.getElem?_mem hkt

theorem length_filter_isDirect_le (pid : Nat) :
    ∀ evs : List HitEvent,
      (evs.filter (HitEvent.isDirectHitBy pid)).length ≤
        (evs.filter HitEvent.isDamaged).length := by
  intro evs
  induction evs with
  | nil => simp
  | cons ev tail ih =>
    simp only [List.filter_cons]
    by_cases hd : HitEvent.isDirectHitBy pid ev = true
    · rw [if_pos hd, if_pos (isDirectHitBy_pid hd).2]
      simpa using ih
    · rw [if_neg hd]
      split
      · exact le_trans ih (by simp)
      · exact ih

theorem not_id_mem_eraseIdx {projs : List WProjectile} {i : Nat} {p : WProjectile}
    (hnd : (projs.map WProjectile.id).Nodup) (heq : projs[i]? = some p) :
    p.id ∉ (projs.eraseIdx i).map WProjectile.id := by
  have hi : i < projs.length := by
    by_contra hge
    push_neg at hge
    rw [List.getElem?_eq_none hge] at heq
    cases heq
  have hgetp : projs[i] = p := by
    have hsome := List.getElem?_eq_getElem hi
    rw [heq] at hsome
    exact (Option.some_inj.mp hsome).symm
  have hdecomp : projs = projs.take i ++ p :: projs.drop (i + 1) := by
    conv_lhs => rw [← List.take_append_drop i projs]
    rw [List.drop_eq_getElem_cons hi, hgetp]
  have hnd2 : ((projs.take i ++ p :: projs.drop (i + 1)).map WProjectile.id).Nodup := by
    rw [← hdecomp]
    exact hnd
  simp only [List.map_append, List.map_cons] at hnd2
  rw [List.nodup_append] at hnd2
  intro hmem
  rw [List.eraseIdx_eq_take_drop_succ, List.map_append, List.mem_append] at hmem
  rcases hmem with hA | hB
  · exact absurd (List.mem_cons_self _ _) (hnd2.2.2 hA)
  · exact (List.nodup_cons.mp hnd2.2.1).1 hB

theorem passFrom_dead (cfg : WeaponCfg) (crit : Nat → Nat → Bool) :
    ∀ (i : Nat) (projs : List WProjectile) (enemies : List CEnemy) (k : Nat)
      (e0 : CEnemy),
      enemies[k]? = some e0 → e0.isDead = true →
      ∀ ev ∈ (passFrom cfg crit i projs enemies).events, ev.enemyIdx ≠ k := by
  intro i
  induction i with
  | zero => intro projs enemies k e0 hk hd ev hev; simp [passFrom] at hev
  | succ i ih =>
    intro projs enemies k e0 hk hd ev hev
    rw [passFrom] at hev
    split at hev
    · exact ih projs enemies k e0 hk hd ev hev
    · rename_i p heq
      dsimp only at hev
      have hscan := hitScan_dead cfg crit p enemies 0 k e0 hk hd
      rcases List.mem_append.mp hev with hev | hev
      · have hne := hscan.2 ev hev
        simpa using hne
      · obtain ⟨e1, he1, hd1⟩ := hscan.1
        exact ih _ _ k e1 he1 hd1 ev hev

theorem passFrom_direct_count (cfg : WeaponCfg) (crit : Nat → Nat → Bool)
    (hp : cfg.hasPiercing = false) :
    ∀ (i : Nat) (projs : List WProjectile) (enemies : List CEnemy) (pid : Nat),
      ((projs.take i).map WProjectile.id).Nodup →
      ((passFrom cfg crit i projs enemies).events.filter
        (HitEvent.isDirectHitBy pid)).length ≤ 1 := by
  intro i
  induction i with
  | zero => intro projs enemies pid hnd; simp [passFrom]
  | succ i ih =>
    intro projs enemies pid hnd
    rw [passFrom]
    split
    · apply ih
      refine List.Nodup.sublist (List.Sublist.map _ ?_) hnd
      rw [List.take_succ]
      exact List.sublist_append_left _ _
    · rename_i p heq
      dsimp only
      simp only [List.filter_append, List.length_append]
      have htake : (projs.take (i + 1)).map WProjectile.id =
          (projs.take i).map WProjectile.id ++ [p.id] := by
        rw [List.take_succ, heq]
        simp
      rw [htake, List.nodup_append] at hnd
      have hndtake : ((projs.take i).map WProjectile.id).Nodup := hnd.1
      have hfresh : p.id ∉ (projs.take i).map WProjectile.id := by
        intro hmem
        exact hnd.2.2 hmem (by simp)
      by_cases hpid : pid = p.id
      · subst hpid
        have hhead : ((hitScan cfg crit p 0 enemies).events.filter
            (HitEvent.isDirectHitBy p.id)).length ≤ 1 :=
          le_trans (length_filter_isDirect_le p.id _)
            (hitScan_damaged_count cfg crit p hp enemies 0)
        have hrestnil : ∀ projs2 : List WProjectile,
            projs2.take i = projs.take i → ∀ enemies2 : List CEnemy,
            (passFrom cfg crit i projs2 enemies2).events.filter
              (HitEvent.isDirectHitBy p.id) = [] := by
          intro projs2 htk enemies2
          rw [List.filter_eq_nil_iff]
          intro ev hev hdir
          obtain ⟨k, hki, q, hq, hpid2⟩ := passFrom_events_pid cfg crit i _ _ ev hev
          have hqmem := mem_take_of_getElem projs2 k i q hki hq
          rw [htk] at hqmem
          have hqid : q.id ∈ (projs.take i).map WProjectile.id :=
            List.mem_map_of_mem _ hqmem
          rw [← hpid2, (isDirectHitBy_pid hdir).1] at hqid
          exact hfresh hqid
        split
        · rw [hrestnil _ (eraseIdx_take_self projs i) _]
          simpa using hhead
        · rw [hrestnil _ rfl _]
          simpa using hhead
      · have hheadnil : ((hitScan cfg crit p 0 enemies).events.filter
            (HitEvent.isDirectHitBy pid)) = [] := by
          rw [List.filter_eq_nil_iff]
          intro ev hev hdir
          exact hpid (((isDirectHitBy_pid hdir).1).symm.trans
            (hitScan_events_pid cfg crit p enemies 0 ev hev))
        rw [hheadnil]
        simp only [List.length_nil, Nat.zero_add]
        split
        · refine ih _ _ pid ?_
          rw [eraseIdx_take_self]
          exact hndtake
        · exact ih _ _ pid hndtake

theorem passFrom_hit_removed (cfg : WeaponCfg) (crit : Nat → Nat → Bool)
    (hp : cfg.hasPiercing = false) :
    ∀ (i : Nat) (projs : List WProjectile) (enemies : List CEnemy) (pid : Nat),
      (projs.map WProjectile.id).Nodup →
      (∃ ev ∈ (passFrom cfg crit i projs enemies).events,
        HitEvent.isDirectHitBy pid ev = true) →
      pid ∉ (passFrom cfg crit i projs enemies).projectiles.map WProjectile.id := by
  intro i
  induction i with
  | zero =>
    intro projs enemies pid hnd hex
    obtain ⟨ev, hev, -⟩ := hex
    simp [passFrom] at hev
  | succ i ih =>
    intro projs enemies pid hnd hex
    rcases heq : projs[i]? with _ | p
    · rw [passFrom, heq] at hex
      rw [passFrom, heq]
      exact ih projs enemies pid hnd hex
    · rw [passFrom, heq] at hex
      rw [passFrom, heq]
      dsimp only at hex ⊢
      obtain ⟨ev, hev, hdir⟩ := hex
      rcases List.mem_append.mp hev with hhead | hrest
      · have hhit : (hitScan cfg crit p 0 enemies).hitEnemy = true :=
          (hitScan_hit_iff cfg crit p enemies 0).mpr
            ⟨ev, hhead, (isDirectHitBy_pid hdir).2⟩
        have hsr := hitScan_shouldRemove cfg crit p hp enemies 0
        have hpidp : pid = p.id := ((isDirectHitBy_pid hdir).1).symm.trans
          (hitScan_events_pid cfg crit p enemies 0 ev hhead)
        rw [if_pos (Or.inl ⟨hhit, hsr⟩)]
        intro hmem
        have hsub : ((passFrom cfg crit i (projs.eraseIdx i)
            (hitScan cfg crit p 0 enemies).enemies).projectiles.map
              WProjectile.id).Sublist ((projs.eraseIdx i).map WProjectile.id) :=
          List.Sublist.map _ (passFrom_projectiles_sublist cfg crit i _ _)
        have hmem2 := hsub.subset hmem
        rw [hpidp] at hmem2
        exact not_id_mem_eraseIdx hnd heq hmem2
      · by_cases hcond : ((hitScan cfg crit p 0 enemies).hitEnemy = true ∧
            (hitScan cfg crit p 0 enemies).shouldRemove = true) ∨
            ((hitScan cfg crit p 0 enemies).hitEnemy = true ∧ cfg.hasPiercing = true)
        · rw [if_pos hcond] at hrest ⊢
          exact ih _ _ pid
            (List.Nodup.sublist (List.Sublist.map _ (List.eraseIdx_sublist projs i))
              hnd)
            ⟨ev, hrest, hdir⟩
        · rw [if_neg hcond] at hrest ⊢
          exact ih _ _ pid hnd ⟨ev, hrest, hdir⟩

/-- C5.  With piercing disabled, each projectile in a collision pass applies
direct damage at most once (so at most one enemy, hit exactly once); a
projectile that applied direct damage is no longer in the projectile list
afterwards; an enemy whose `isDead` flag was already set when the pass began
receives no damage at all; and releasing a handle that is not active leaves
the core pool unchanged. -/
theorem weapon_nonpiercing_single_hit (cfg : WeaponCfg) (crit : Nat → Nat → Bool)
    (projs : List WProjectile) (enemies : List CEnemy)
    (hp : cfg.hasPiercing = false)
    (hids : (projs.map WProjectile.id).Nodup) :
    (∀ pid, ((checkEnemyCollisions cfg crit projs enemies).events.filter
        (HitEvent.isDirectHitBy pid)).length ≤ 1) ∧
    (∀ pid, (∃ ev ∈ (checkEnemyCollisions cfg crit projs enemies).events,
        HitEvent.isDirectHitBy pid ev = true) →
      pid ∉ (checkEnemyCollisions cfg crit projs enemies).projectiles.map
        WProjectile.id) ∧
    (∀ k e0, enemies[k]? = some e0 → e0.isDead = true →
      ∀ ev ∈ (checkEnemyCollisions cfg crit projs enemies).events,
        ev.enemyIdx ≠ k) ∧
    (∀ (s : PoolState) (obj : Nat), obj ∉ s.activeObjects → s.release obj = s) := by
  refine ⟨?_, ?_, ?_, ?_⟩
  · intro pid
    refine passFrom_direct_count cfg crit hp projs.length projs enemies pid ?_
    rw [List.take_length]
    exact hids
  · intro pid hex
    exact passFrom_hit_removed cfg crit hp projs.length projs enemies pid hids hex
  · intro k e0 hk hd
    exact passFrom_dead cfg crit projs.length projs enemies k e0 hk hd
  · intro s obj hobj
    unfold PoolState.release
    rw [if_neg hobj]

/-- C5 witness: the general theorem applied to a concrete non-piercing pass
with one projectile against a dead enemy and a live enemy. -/
theorem weapon_nonpiercing_single_hit_witness :
    nonPiercingCfg.hasPiercing = false ∧
    (([demoProjectile].map WProjectile.id).Nodup) ∧
    ((∀ pid, ((checkEnemyCollisions nonPiercingCfg (fun _ _ => false)
        [demoProjectile] [demoDeadEnemy, demoEnemyA]).events.filter
        (HitEvent.isDirectHitBy pid)).length ≤ 1) ∧
    (∀ pid, (∃ ev ∈ (checkEnemyCollisions nonPiercingCfg (fun _ _ => false)
        [demoProjectile] [demoDeadEnemy, demoEnemyA]).events,
        HitEvent.isDirectHitBy pid ev = true) →
      pid ∉ (checkEnemyCollisions nonPiercingCfg (fun _ _ => false)
        [demoProjectile] [demoDeadEnemy, demoEnemyA]).projectiles.map
        WProjectile.id) ∧
    (∀ k e0, ([demoDeadEnemy, demoEnemyA] : List CEnemy)[k]? = some e0 →
      e0.isDead = true →
      ∀ ev ∈ (checkEnemyCollisions nonPiercingCfg (fun _ _ => false)
        [demoProjectile] [demoDeadEnemy, demoEnemyA]).events,
        ev.enemyIdx ≠ k) ∧
    (∀ (s : PoolState) (obj : Nat), obj ∉ s.activeObjects → s.release obj = s)) :=
  ⟨rfl, by decide,
   weapon_nonpiercing_single_hit nonPiercingCfg (fun _ _ => false)
     [demoProjectile] [demoDeadEnemy, demoEnemyA] rfl (by decide)⟩

/-- C2 evaluation at the failing input: a piercing projectile that overlaps
two live enemies damages both exactly once in one pass, but is then removed
from the projectile list by the condition
`(hitEnemy && shouldRemoveProjectile) || (hitEnemy && hasPiercing)` even
though its lifetime has not expired and it is in bounds. -/
theorem weapon_piercing_projectile_removed_on_hit :
    (checkEnemyCollisions piercingCfg (fun _ _ => false) [demoProjectile]
        [demoEnemyA, demoEnemyB]).projectiles = [] ∧
    (checkEnemyCollisions piercingCfg (fun _ _ => false) [demoProjectile]
        [demoEnemyA, demoEnemyB]).events =
      [HitEvent.damaged 0 0 1, HitEvent.damaged 0 1 1] ∧
    (checkEnemyCollisions piercingCfg (fun _ _ => false) [demoProjectile]
        [demoEnemyA, demoEnemyB]).killed = [] := by
  refine ⟨?_, ?_, ?_⟩ <;>
    norm_num [checkEnemyCollisions, passFrom, hitScan, piercingCfg, demoProjectile,
      demoEnemyA, demoEnemyB, Vec3.distSq, CEnemy.takeDamage]

/-- C6.  Adding an effect whose id is already present first fires the existing
effect's `onEnd`, then installs the new effect and fires its `onStart`, and
exactly one effect with that id remains; adding a fresh id fires only
`onStart` (and exactly one entry with the id exists afterwards). -/
theorem statusEffect_replace_semantics (m : SEManager) (e : SEffect) :
    (∀ kv, m.findEntry e.id = some kv →
      (m.addEffect e).2 =
        (if kv.2.effect.onEnd then [SEEvent.ended kv.2.effect.label] else []) ++
        (if e.onStart then [SEEvent.started e.label] else []) ∧
      (((m.addEffect e).1.effects.filter (fun p => p.1 = e.id)).length = 1)) ∧
    (m.findEntry e.id = none →
      (m.addEffect e).2 = (if e.onStart then [SEEvent.started e.label] else []) ∧
      (∀ lab, SEEvent.ended lab ∉ (m.addEffect e).2) ∧
      (((m.addEffect e).1.effects.filter (fun p => p.1 = e.id)).length = 1)) := by
  constructor
  · intro kv hfind
    have heq : m.addEffect e =
        (⟨(m.effects.filter (fun p => p.1 ≠ e.id)) ++
            [(e.id, { effect := e, elapsed := 0, lastTick := 0 })]⟩,
         (if kv.2.effect.onEnd then [SEEvent.ended kv.2.effect.label] else []) ++
           (if e.onStart then [SEEvent.started e.label] else [])) := by
      simp [SEManager.addEffect, SEManager.removeEffect, hfind]
    rw [heq]
    refine ⟨rfl, ?_⟩
    simp only [List.filter_append]
    have hnil : (m.effects.filter (fun p => p.1 ≠ e.id)).filter
        (fun p => p.1 = e.id) = [] := by
      rw [List.filter_eq_nil_iff]
      intro p hp
      have hne := List.of_mem_filter hp
      simp only [ne_eq, decide_eq_true_eq] at hne
      simpa using hne
    rw [hnil]
    simp
  · intro hfind
    have hnomem : ∀ p ∈ m.effects, ¬ (p.1 = e.id) := by
      intro p hp
      have hf := List.find?_eq_none.mp hfind p hp
      simpa using hf
    have heq : m.addEffect e =
        (⟨m.effects ++ [(e.id, { effect := e, elapsed := 0, lastTick := 0 })]⟩,
         if e.onStart then [SEEvent.started e.label] else []) := by
      simp [SEManager.addEffect, hfind]
    rw [heq]
    refine ⟨rfl, ?_, ?_⟩
    · intro lab
      by_cases hs : e.onStart = true <;> simp [hs]
    · simp only [List.filter_append]
      have hnil : m.effects.filter (fun p => p.1 = e.id) = [] := by
        rw [List.filter_eq_nil_iff]
        intro p hp
        simpa using hnomem p hp
      rw [hnil]
      simp

/-- C6 witness: replacing the installed poison effect fires `onEnd` of the old
one, then `onStart` of the new one, with a single entry for the id left. -/
theorem statusEffect_replace_semantics_witness :
    (demoManager.addEffect demoNewEffect).2 = [SEEvent.ended 1, SEEvent.started 2] ∧
    ((demoManager.addEffect demoNewEffect).1.effects.filter
        (fun p => p.1 = demoNewEffect.id)).length = 1 := by
  have h := (statusEffect_replace_semantics demoManager demoNewEffect).1
    ("poison", { effect := demoOldEffect, elapsed := 0, lastTick := 0 }) rfl
  refine ⟨?_, h.2⟩
  rw [h.1]
  rfl

/-! ## Wave machine lemmas (C7) -/

theorem updateEnemies_waveNumber (s : EMState) :
    (s.updateEnemies).waveNumber = s.waveNumber := rfl

theorem spawnBoss_waveNumber (s : EMState) :
    (s.spawnBoss).1.waveNumber = s.waveNumber := rfl

theorem spawnEnemy_waveNumber (s : EMState) (r : ℚ) :
    (s.spawnEnemy r).1.waveNumber = s.waveNumber := by
  unfold EMState.spawnEnemy
  by_cases h1 : s.waveNumber = 10 ∧ s.bossSpawned = false
  · rw [if_pos h1]
    rfl
  · rw [if_neg h1]
    by_cases h2 : s.waveNumber = 10 ∧ s.bossDefeated = false
    · rw [if_pos h2]
    · rw [if_neg h2]

theorem advance_waveNumber (s : EMState) (br : List ℚ) :
    (s.advanceToNextWave br).1.waveNumber =
      if 10 < s.waveNumber + 1 then 10 else s.waveNumber + 1 := by
  unfold EMState.advanceToNextWave
  dsimp only
  split <;> split <;> rfl

theorem spawnPhase_waveNumber (s2 : EMState) (r1 r2 : ℚ) :
    (s2.spawnPhase r1 r2).1.waveNumber = s2.waveNumber := by
  unfold EMState.spawnPhase
  split
  · dsimp only
    rw [spawnEnemy_waveNumber]
  · rfl

theorem step_wave (s : EMState) (op : EMOp) (h : s.waveNumber ≤ 10) :
    s.waveNumber ≤ (s.stepOp op).1.waveNumber ∧ (s.stepOp op).1.waveNumber ≤ 10 := by
  cases op with
  | advance br =>
    show s.waveNumber ≤ (s.advanceToNextWave br).1.waveNumber ∧
      (s.advanceToNextWave br).1.waveNumber ≤ 10
    rw [advance_waveNumber]
    constructor
    · split <;> omega
    · split <;> omega
  | markDead i =>
    dsimp only [EMState.stepOp]
    rcases s.enemies[i]? with _ | e <;> exact ⟨le_rfl, h⟩
  | update d r1 r2 br =>
    show s.waveNumber ≤ (s.update d r1 r2 br).1.waveNumber ∧
      (s.update d r1 r2 br).1.waveNumber ≤ 10
    unfold EMState.update
    split
    · exact ⟨le_rfl, h⟩
    · dsimp only
      split
      · rename_i r heq
        split at heq
        · split at heq
          · injection heq with heq2
            rw [← heq2, advance_waveNumber]
            dsimp only
            constructor
            · split <;> omega
            · split <;> omega
          · exact Sum.noConfusion heq
        · exact Sum.noConfusion heq
      · rename_i s1 heq
        have hs1 : s1.waveNumber = s.waveNumber := by
          split at heq
          · split at heq
            · exact Sum.noConfusion heq
            · injection heq with heq2
              rw [← heq2]
          · injection heq with heq2
            rw [← heq2]
        rw [updateEnemies_waveNumber, spawnPhase_waveNumber]
        show s.waveNumber ≤ s1.waveNumber ∧ s1.waveNumber ≤ 10
        omega

theorem step_boss_suppression (s : EMState) (op : EMOp)
    (hw : s.waveNumber = 10) (hb : s.bossSpawned = true) (hd : s.bossDefeated = false) :
    ∀ ev ∈ (s.stepOp op).2, ev = EMEvent.spawned EKind.boss := by
  cases op with
  | update d r1 r2 br =>
    show ∀ ev ∈ (s.update d r1 r2 br).2, ev = EMEvent.spawned EKind.boss
    unfold EMState.update
    rw [if_pos (Or.inr ⟨hw, hb, hd⟩)]
    intro ev hev
    simp at hev
  | advance br =>
    show ∀ ev ∈ (s.advanceToNextWave br).2, ev = EMEvent.spawned EKind.boss
    intro ev hev
    unfold EMState.advanceToNextWave at hev
    rw [hw] at hev
    norm_num [EMState.spawnBoss] at hev
    exact hev
  | markDead i =>
    dsimp only [EMState.stepOp]
    rcases s.enemies[i]? with _ | e <;> intro ev hev <;> simp at hev

theorem runEM_foldl_wave (ops : List EMOp) :
    ∀ s : EMState, s.waveNumber ≤ 10 →
      s.waveNumber ≤ (ops.foldl (fun t op => (t.stepOp op).1) s).waveNumber ∧
      (ops.foldl (fun t op => (t.stepOp op).1) s).waveNumber ≤ 10 := by
  induction ops with
  | nil => exact fun s h => ⟨le_rfl, h⟩
  | cons op rest ih =>
    intro s h
    have h1 := step_wave s op h
    have h2 := ih (s.stepOp op).1 h1.2
    exact ⟨le_trans h1.1 h2.1, h2.2⟩

/-- C7.  Along every step sequence of the wave machine, `waveNumber` never
decreases and never exceeds the configured maximum of 10; and from any state
in the boss wave with the boss spawned and not yet defeated, no step emits a
non-boss spawn. -/
theorem wave_monotonic_boss_suppression :
    (∀ ops : List EMOp, (runEM ops).waveNumber ≤ 10) ∧
    (∀ ops extra : List EMOp,
      (runEM ops).waveNumber ≤ (runEM (ops ++ extra)).waveNumber) ∧
    (∀ (s : EMState) (op : EMOp), s.waveNumber = 10 → s.bossSpawned = true →
      s.bossDefeated = false →
      ∀ ev ∈ (s.stepOp op).2, ev = EMEvent.spawned EKind.boss) := by
  have hinit : EMState.init.waveNumber ≤ 10 := by norm_num [EMState.init]
  have hrun : ∀ ops : List EMOp, (runEM ops).waveNumber ≤ 10 := fun ops =>
    (runEM_foldl_wave ops EMState.init hinit).2
  refine ⟨hrun, ?_, step_boss_suppression⟩
  intro ops extra
  show (runEM ops).waveNumber ≤ (runEM (ops ++ extra)).waveNumber
  unfold runEM
  rw [List.foldl_append]
  exact (runEM_foldl_wave extra _ (hrun ops)).1

/-- C7 witness: a concrete boss-wave state and concrete step sequences,
applied to the general theorem. -/
theorem wave_monotonic_boss_suppression_witness :
    demoBossState.waveNumber = 10 ∧ demoBossState.bossSpawned = true ∧
    demoBossState.bossDefeated = false ∧
    (∀ ev ∈ (demoBossState.stepOp (EMOp.update 1 0 0 [])).2,
      ev = EMEvent.spawned EKind.boss) ∧
    (runEM [EMOp.advance [], EMOp.advance []]).waveNumber ≤ 10 :=
  ⟨rfl, rfl, rfl,
   wave_monotonic_boss_suppression.2.2 demoBossState (EMOp.update 1 0 0 []) rfl rfl rfl,
   wave_monotonic_boss_suppression.1 [EMOp.advance [], EMOp.advance []]⟩

/-! ## Splitting melee enemy (C8) -/

theorem melee_health_pos (w : Nat) :
    0 < meleeBaseHealth * waveHealthMultiplier w := by
  unfold meleeBaseHealth waveHealthMultiplier
  have hw : (0 : ℚ) ≤ (w : ℚ) := Nat.cast_nonneg w
  nlinarith

theorem melee_child_after_split (pos : Vec3) (w : Nat) :
    (MeleeE.spawn pos w).takeDamage ((MeleeE.spawn pos w).maxHealth * (3 / 4)) =
      { pos := pos
        health := meleeBaseHealth * waveHealthMultiplier w * (1 / 4)
        maxHealth := meleeBaseHealth * waveHealthMultiplier w
        isDead := false
        inScene := true
        waveNumber := w } := by
  have hH := melee_health_pos w
  unfold MeleeE.spawn MeleeE.takeDamage
  simp only
  rw [if_neg]
  · have harith : meleeBaseHealth * waveHealthMultiplier w -
        meleeBaseHealth * waveHealthMultiplier w * (3 / 4) =
        meleeBaseHealth * waveHealthMultiplier w * (1 / 4) := by ring
    rw [harith]
  · rintro ⟨hle, -⟩
    nlinarith

theorem vec3_add_offset1_ne (v : Vec3) : Vec3.add v splitOffset1 ≠ v := by
  intro h
  have hx := congrArg Vec3.x h
  simp only [Vec3.add, splitOffset1] at hx
  linarith

theorem vec3_add_offset2_ne (v : Vec3) : Vec3.add v splitOffset2 ≠ v := by
  intro h
  have hx := congrArg Vec3.x h
  simp only [Vec3.add, splitOffset2] at hx
  linarith

/-- C8.  A splitting melee enemy that has not split yet dies into exactly two
melee children at offset positions, each alive with a quarter of its max
health; the one-shot `hasSplit` flag is set, the enemy's own death is
finalized (dead, out of the scene), and a second `die` spawns nothing. -/
theorem splitting_enemy_die (e : SplitEnemy) (h : e.hasSplit = false) :
    ((e.die).2).length = 2 ∧
    ((e.die).2).map MeleeE.pos =
      [Vec3.add e.pos splitOffset1, Vec3.add e.pos splitOffset2] ∧
    (∀ c ∈ (e.die).2, c.isDead = false ∧ c.inScene = true ∧
      0 < c.health ∧ c.health < c.maxHealth ∧ c.health = c.maxHealth * (1 / 4) ∧
      c.pos ≠ e.pos) ∧
    (e.die).1.hasSplit = true ∧ (e.die).1.isDead = true ∧ (e.die).1.inScene = false ∧
    ((e.die).1.die).2 = [] := by
  have hH := melee_health_pos e.waveNumber
  have hdie : e.die =
      ({ e with hasSplit := true, isDead := true, inScene := false },
       [(MeleeE.spawn (Vec3.add e.pos splitOffset1) e.waveNumber).takeDamage
          ((MeleeE.spawn (Vec3.add e.pos splitOffset1) e.waveNumber).maxHealth * (3 / 4)),
        (MeleeE.spawn (Vec3.add e.pos splitOffset2) e.waveNumber).takeDamage
          ((MeleeE.spawn (Vec3.add e.pos splitOffset2) e.waveNumber).maxHealth * (3 / 4))]) := by
    unfold SplitEnemy.die
    rw [if_pos h]
  rw [hdie, melee_child_after_split, melee_child_after_split]
  refine ⟨rfl, rfl, ?_, rfl, rfl, rfl, ?_⟩
  · intro c hc
    have hlt : meleeBaseHealth * waveHealthMultiplier e.waveNumber * (1 / 4) <
        meleeBaseHealth * waveHealthMultiplier e.waveNumber := by nlinarith
    have hpos : 0 < meleeBaseHealth * waveHealthMultiplier e.waveNumber * (1 / 4) := by
      nlinarith
    simp only [List.mem_cons, List.not_mem_nil, or_false] at hc
    rcases hc with rfl | rfl
    · exact ⟨rfl, rfl, hpos, hlt, by ring, vec3_add_offset1_ne e.pos⟩
    · exact ⟨rfl, rfl, hpos, hlt, by ring, vec3_add_offset2_ne e.pos⟩
  · unfold SplitEnemy.die
    rw [if_neg]
    simp

/-- C8 witness: a concrete unsplit splitting enemy, applied to the general
theorem. -/
theorem splitting_enemy_die_witness :
    demoSplitter.hasSplit = false ∧ ((demoSplitter.die).2).length = 2 :=
  ⟨rfl, (splitting_enemy_die demoSplitter rfl).1⟩

/-! ## Direction-vector guards (C9) -/

/-- C9 (amended).  At the three guarded sites (`RangedEnemy.shoot`,
`ProjectilePool.getProjectile`, `ProjectilePool.update`) a zero or near-zero
direction is replaced by the fixed default `(1, 0, 0)`, so the vector that
reaches normalization always has positive squared length; `Projectile.fire`
performs no substitution. -/
theorem direction_guard_default_substitution :
    (∀ pp ep : Vec3, 0 < (rangedShootPreNormalize pp ep).lengthSq ∧
      ((Vec3.sub pp ep).lengthSq = 0 → rangedShootPreNormalize pp ep = defaultDirection)) ∧
    (∀ d : Vec3, 0 < (poolValidDirectionPreNormalize d).lengthSq ∧
      (d.lengthSq = 0 → poolValidDirectionPreNormalize d = defaultDirection)) ∧
    (∀ d : Vec3, 0 < (poolAdvanceDirection d).lengthSq ∧
      (d.lengthSq = 0 → poolAdvanceDirection d = defaultDirection)) := by
  have hdef : (0 : ℚ) < defaultDirection.lengthSq := by
    norm_num [defaultDirection, Vec3.lengthSq]
  refine ⟨?_, ?_, ?_⟩
  · intro pp ep
    unfold rangedShootPreNormalize
    by_cases hlt : (Vec3.sub pp ep).lengthSq < 1 / 1000
    · rw [if_pos hlt]
      exact ⟨hdef, fun _ => rfl⟩
    · rw [if_neg hlt]
      constructor
      · push_neg at hlt
        linarith
      · intro h0
        exfalso
        rw [h0] at hlt
        exact hlt (by norm_num)
  · intro d
    unfold poolValidDirectionPreNormalize
    by_cases hgt : 1 / 1000 < d.lengthSq
    · rw [if_pos hgt]
      constructor
      · linarith
      · intro h0
        rw [h0] at hgt
        exact absurd hgt (by norm_num)
    · rw [if_neg hgt]
      exact ⟨hdef, fun _ => rfl⟩
  · intro d
    unfold poolAdvanceDirection
    by_cases hlt : d.lengthSq < 1 / 1000
    · rw [if_pos hlt]
      exact ⟨hdef, fun _ => rfl⟩
    · rw [if_neg hlt]
      constructor
      · push_neg at hlt
        linarith
      · intro h0
        exfalso
        rw [h0] at hlt
        exact hlt (by norm_num)

/-- C9 counterexample: `Projectile.fire` hands a zero-length launch direction
to normalization unchanged — no fixed default is substituted. -/
theorem projectile_fire_no_direction_guard :
    fireDirectionPreNormalize ⟨0, 0, 0⟩ = ⟨0, 0, 0⟩ ∧
    Vec3.lengthSq ⟨0, 0, 0⟩ = 0 ∧
    fireDirectionPreNormalize ⟨0, 0, 0⟩ ≠ defaultDirection := by
  refine ⟨rfl, by norm_num [Vec3.lengthSq], ?_⟩
  intro hcontra
  have hx := congrArg Vec3.x hcontra
  simp only [fireDirectionPreNormalize, defaultDirection] at hx
  norm_num at hx

/-- C9 witness: the guards applied at concrete degenerate inputs. -/
theorem direction_guard_default_substitution_witness :
    Vec3.lengthSq (Vec3.sub ⟨2, 3, 4⟩ ⟨2, 3, 4⟩) = 0 ∧
    rangedShootPreNormalize ⟨2, 3, 4⟩ ⟨2, 3, 4⟩ = defaultDirection ∧
    poolValidDirectionPreNormalize ⟨0, 0, 0⟩ = defaultDirection ∧
    poolAdvanceDirection ⟨0, 0, 0⟩ = defaultDirection ∧
    0 < (rangedShootPreNormalize ⟨2, 3, 4⟩ ⟨2, 3, 4⟩).lengthSq :=
  ⟨by norm_num [Vec3.lengthSq, Vec3.sub],
   (direction_guard_default_substitution.1 ⟨2, 3, 4⟩ ⟨2, 3, 4⟩).2
     (by norm_num [Vec3.lengthSq, Vec3.sub]),
   (direction_guard_default_substitution.2.1 ⟨0, 0, 0⟩).2
     (by norm_num [Vec3.lengthSq]),
   (direction_guard_default_substitution.2.2 ⟨0, 0, 0⟩).2
     (by norm_num [Vec3.lengthSq]),
   (direction_guard_default_substitution.1 ⟨2, 3, 4⟩ ⟨2, 3, 4⟩).1⟩

/-- C10 witness: a concrete pool with a reset function, applied to the general
theorem. -/
theorem objectPool_get_resets_before_handout_witness :
    (PoolState.init true 2 5).hasResetFn = true ∧
    ((((PoolState.init true 2 5).get).2.2).getLast? =
        some (PoolEvent.didReset ((PoolState.init true 2 5).get).1) ∧
      ((PoolState.init true 2 5).get).1 ∈
        ((PoolState.init true 2 5).get).2.1.activeObjects) :=
  ⟨by decide, objectPool_get_resets_before_handout (PoolState.init true 2 5) (by decide)⟩

/-- C1 (amended: the query radius is non-negative; over the exact embedding,
distance from the center ≤ radius is then equivalent to the code's squared test
`0 ≤ r ∧ distSq ≤ r * r`): for every hygienic sequence of insert/update/remove
operations building a grid with positive cell size, and every query center and
non-negative radius, `queryRadius` returns a duplicate-free list whose
underlying set is exactly the brute-force set of stored objects within the
radius, and this set depends only on the set of stored objects, not on the
order in which two such operation sequences produced it. -/
theorem spatialGrid_queryRadius_brute_force (s cx cy cz r : ℤ)
    (ops ops2 : List GridOp) (hs : 0 < s) (hr : 0 ≤ r)
    (h1 : hygienicFrom (SpatialGrid.empty s) ops = true)
    (h2 : hygienicFrom (SpatialGrid.empty s) ops2 = true)
    (hsame : (applyOps s ops).objects.toFinset = (applyOps s ops2).objects.toFinset) :
    ((applyOps s ops).queryRadius cx cy cz r).Nodup ∧
    ((applyOps s ops).queryRadius cx cy cz r).toFinset =
      (bruteForce (applyOps s ops).objects cx cy cz r).toFinset ∧
    ((applyOps s ops).queryRadius cx cy cz r).toFinset =
      ((applyOps s ops2).queryRadius cx cy cz r).toFinset := by
  have hw1 : (applyOps s ops).Wf := wf_applyOps_of_hygienic hs h1
  have hw2 : (applyOps s ops2).Wf := wf_applyOps_of_hygienic hs h2
  refine ⟨queryRadius_nodup _ cx cy cz r, queryRadius_toFinset_eq hw1 hr, ?_⟩
  rw [queryRadius_toFinset_eq hw1 hr, queryRadius_toFinset_eq hw2 hr]
  unfold bruteForce
  rw [List.toFinset_filter, List.toFinset_filter, hsame]

/-- C1 counterexample to the unamended claim: with a negative query radius the
set of objects at distance ≤ radius is empty, yet `queryRadius` can return an
object, because the code compares squared distances (`9 ≤ (-5) * (-5)`).  Cell
size 100, one stored object at (47,50,50), query center (50,50,50), radius
-5. -/
theorem spatialGrid_queryRadius_negative_radius :
    (((SpatialGrid.empty 100).insert gridObjC).queryRadius 50 50 50 (-5)).length = 1 ∧
    bruteForce ((SpatialGrid.empty 100).insert gridObjC).objects 50 50 50 (-5) = [] := by
  decide

/-- C1 witness: two concrete insertion orders of two objects, cell size 5,
query center the origin with radius 3, with every hypothesis of the theorem
checked by evaluation. -/
theorem spatialGrid_queryRadius_brute_force_witness :
    ((0:ℤ) < 5 ∧ (0:ℤ) ≤ 3 ∧
      hygienicFrom (SpatialGrid.empty 5) [GridOp.ins gridObj1, GridOp.ins gridObj2] = true ∧
      hygienicFrom (SpatialGrid.empty 5) [GridOp.ins gridObj2, GridOp.ins gridObj1] = true ∧
      (applyOps 5 [GridOp.ins gridObj1, GridOp.ins gridObj2]).objects.toFinset =
        (applyOps 5 [GridOp.ins gridObj2, GridOp.ins gridObj1]).objects.toFinset) ∧
    (((applyOps 5 [GridOp.ins gridObj1, GridOp.ins gridObj2]).queryRadius 0 0 0 3).Nodup ∧
      ((applyOps 5 [GridOp.ins gridObj1, GridOp.ins gridObj2]).queryRadius 0 0 0 3).toFinset =
        (bruteForce (applyOps 5 [GridOp.ins gridObj1, GridOp.ins gridObj2]).objects
          0 0 0 3).toFinset ∧
      ((applyOps 5 [GridOp.ins gridObj1, GridOp.ins gridObj2]).queryRadius 0 0 0 3).toFinset =
        ((applyOps 5 [GridOp.ins gridObj2, GridOp.ins gridObj1]).queryRadius 0 0 0 3).toFinset) :=
  ⟨⟨by decide, by decide, by decide, by decide, by decide⟩,
   spatialGrid_queryRadius_brute_force 5 0 0 0 3
     [GridOp.ins gridObj1, GridOp.ins gridObj2] [GridOp.ins gridObj2, GridOp.ins gridObj1]
     (by decide) (by decide) (by decide) (by decide) (by decide)⟩

end CubeSurvivors
